import Mathlib

set_option maxRecDepth 4000000

/-!
Verification of the data-preparation pipeline in
`backend/scripts/prepare_drug_dataset.py`.

The Python source is shallowly embedded: pandas `DataFrame`s become a
column-oriented table of cells (`Cell` is a float, a string, or the missing
marker `NaN`, written `Cell.na`), floating-point numbers are modelled as
exact rationals, and each pipeline stage is a Lean function translated
line by line from the source.  String/character classes (`\w`, `\s`,
`str.lower`, `str.strip`) are modelled on the label alphabet this
development exercises: the ASCII characters — where Lean's character
predicates coincide with Python's — extended with U+0130 (the dotted
capital I, a Unicode word character whose `str.lower` image is two
characters) and U+0307 (the combining dot above, matched by neither `\w`
nor `\s`), the pair on which the column normalizer's idempotence fails.
-/

/-! ## Character-level facts used by the column normalizer -/

theorem charOfNat_toNat {n : Nat} (h : n < 55296) : (Char.ofNat n).toNat = n := by
  rw [Char.ofNat, dif_pos (Or.inl (by omega))]
  rfl

theorem charEq_iff_toNat {c d : Char} : c = d ↔ c.toNat = d.toNat := by
  constructor
  · intro h; rw [h]
  · intro h; exact Char.ext (UInt32.ext h)

theorem isUpper_iff {c : Char} : c.isUpper = true ↔ 65 ≤ c.toNat ∧ c.toNat ≤ 90 := by
  simp only [Char.isUpper, Bool.and_eq_true, decide_eq_true_eq]
  exact Iff.rfl

theorem isLower_iff {c : Char} : c.isLower = true ↔ 97 ≤ c.toNat ∧ c.toNat ≤ 122 := by
  simp only [Char.isLower, Bool.and_eq_true, decide_eq_true_eq]
  exact Iff.rfl

theorem isDigit_iff {c : Char} : c.isDigit = true ↔ 48 ≤ c.toNat ∧ c.toNat ≤ 57 := by
  simp only [Char.isDigit, Bool.and_eq_true, decide_eq_true_eq]
  exact Iff.rfl

theorem isWhitespace_iff {c : Char} :
    c.isWhitespace = true ↔ c.toNat = 32 ∨ c.toNat = 9 ∨ c.toNat = 13 ∨ c.toNat = 10 := by
  simp only [Char.isWhitespace, Bool.or_eq_true, decide_eq_true_eq]
  rw [charEq_iff_toNat, charEq_iff_toNat, charEq_iff_toNat, charEq_iff_toNat]
  have h1 : (' ' : Char).toNat = 32 := rfl
  have h2 : ('\t' : Char).toNat = 9 := rfl
  have h3 : ('\r' : Char).toNat = 13 := rfl
  have h4 : ('\n' : Char).toNat = 10 := rfl
  rw [h1, h2, h3, h4]
  omega

theorem toLower_toNat (c : Char) :
    (Char.toLower c).toNat = if c.toNat ≥ 65 ∧ c.toNat ≤ 90 then c.toNat + 32 else c.toNat := by
  simp only [Char.toLower]
  split
  · exact charOfNat_toNat (by omega)
  · rfl

/-- U+0130, LATIN CAPITAL LETTER I WITH DOT ABOVE: a Unicode letter, so
Python's `\w` matches it; `str.lower` maps it to `'i'` followed by a
combining dot above (full case mapping, SpecialCasing.txt). -/
def capIDot : Char := Char.ofNat 304

/-- U+0307, COMBINING DOT ABOVE: a combining mark (category Mn), matched by
neither Python's `\w` (it is not alphanumeric) nor `\s`; fixed by
`str.lower`. -/
def dotAbove : Char := Char.ofNat 775

/-- Python's `\w` class on the label alphabet of this development: ASCII
alphanumerics, underscore, and the dotted capital I. -/
def isWordB (c : Char) : Bool := c.isAlphanum || c == '_' || c == capIDot

/-- Characters matched by `[\s\-]` in `to_snake_case`. -/
def wsHyph (c : Char) : Bool := c.isWhitespace || c == '-'

/-- Characters that may appear in a canonical (already normalized) label. -/
def goodChar (c : Char) : Bool := c.isLower || c.isDigit || c == '_'

theorem isWordB_iff {c : Char} :
    isWordB c = true ↔
      (65 ≤ c.toNat ∧ c.toNat ≤ 90) ∨ (97 ≤ c.toNat ∧ c.toNat ≤ 122) ∨
      (48 ≤ c.toNat ∧ c.toNat ≤ 57) ∨ c.toNat = 95 ∨ c.toNat = 304 := by
  simp only [isWordB, Char.isAlphanum, Char.isAlpha, Bool.or_eq_true, beq_iff_eq]
  rw [isUpper_iff, isLower_iff, isDigit_iff, charEq_iff_toNat, charEq_iff_toNat]
  have h95 : ('_' : Char).toNat = 95 := rfl
  have h304 : capIDot.toNat = 304 := rfl
  rw [h95, h304]
  omega

theorem goodChar_iff {c : Char} :
    goodChar c = true ↔
      (97 ≤ c.toNat ∧ c.toNat ≤ 122) ∨ (48 ≤ c.toNat ∧ c.toNat ≤ 57) ∨ c.toNat = 95 := by
  simp only [goodChar, Bool.or_eq_true, beq_iff_eq]
  rw [isLower_iff, isDigit_iff, charEq_iff_toNat]
  have h95 : ('_' : Char).toNat = 95 := rfl
  rw [h95]
  omega

theorem goodChar_isWordB {c : Char} (h : goodChar c = true) : isWordB c = true := by
  rw [goodChar_iff] at h
  rw [isWordB_iff]
  omega

theorem goodChar_not_ws {c : Char} (h : goodChar c = true) : c.isWhitespace = false := by
  rw [goodChar_iff] at h
  cases hw : c.isWhitespace
  · rfl
  · rw [isWhitespace_iff] at hw
    omega

theorem goodChar_not_upper {c : Char} (h : goodChar c = true) : c.isUpper = false := by
  rw [goodChar_iff] at h
  cases hw : c.isUpper
  · rfl
  · rw [isUpper_iff] at hw
    omega

theorem goodChar_not_hyph {c : Char} (h : goodChar c = true) : wsHyph c = false := by
  rw [goodChar_iff] at h
  cases hw : wsHyph c
  · rfl
  · simp only [wsHyph, Bool.or_eq_true, beq_iff_eq] at hw
    rcases hw with hw | hw
    · rw [isWhitespace_iff] at hw; omega
    · rw [charEq_iff_toNat] at hw
      have : ('-' : Char).toNat = 45 := rfl
      omega

theorem isWordB_not_ws {c : Char} (h : isWordB c = true) : c.isWhitespace = false := by
  rw [isWordB_iff] at h
  cases hw : c.isWhitespace
  · rfl
  · rw [isWhitespace_iff] at hw
    omega

theorem isWordB_not_hyph {c : Char} (h : isWordB c = true) : wsHyph c = false := by
  rw [isWordB_iff] at h
  cases hw : wsHyph c
  · rfl
  · simp only [wsHyph, Bool.or_eq_true, beq_iff_eq] at hw
    rcases hw with hw | hw
    · rw [isWhitespace_iff] at hw; omega
    · rw [charEq_iff_toNat] at hw
      have : ('-' : Char).toNat = 45 := rfl
      omega

theorem toLower_eq_self {c : Char} (h : c.isUpper = false) : Char.toLower c = c := by
  rw [charEq_iff_toNat, toLower_toNat, if_neg]
  intro hc
  have := isUpper_iff.mpr ⟨hc.1, hc.2⟩
  rw [h] at this
  exact Bool.false_ne_true this

theorem toLower_not_upper (c : Char) : (Char.toLower c).isUpper = false := by
  cases hu : (Char.toLower c).isUpper
  · rfl
  · rw [isUpper_iff] at hu
    rw [toLower_toNat] at hu
    by_cases h : c.toNat ≥ 65 ∧ c.toNat ≤ 90
    · rw [if_pos h] at hu; omega
    · rw [if_neg h] at hu
      have := isUpper_iff (c := c)
      omega

theorem toLower_goodChar {c : Char} (h : isWordB c = true) (hA : c.toNat < 128) :
    goodChar (Char.toLower c) = true := by
  rw [isWordB_iff] at h
  rw [goodChar_iff, toLower_toNat]
  by_cases hc : c.toNat ≥ 65 ∧ c.toNat ≤ 90
  · rw [if_pos hc]; omega
  · rw [if_neg hc]; omega

theorem toLower_underscore_iff {c : Char} : Char.toLower c = '_' ↔ c = '_' := by
  rw [charEq_iff_toNat, charEq_iff_toNat, toLower_toNat]
  have h95 : ('_' : Char).toNat = 95 := rfl
  by_cases hc : c.toNat ≥ 65 ∧ c.toNat ≤ 90
  · rw [if_pos hc]; omega
  · rw [if_neg hc]

/-! ## The column normalizer (`to_snake_case`, source lines 35-41)

`to_snake_case` performs, in order: `str.strip()`; `re.sub(r"[^\w\s]", " ")`;
`re.sub(r"([a-z0-9])([A-Z])", r"\1_\2")`; `re.sub(r"[\s\-]+", "_")`;
`re.sub(r"_+", "_")`; `str.strip("_")`; `str.lower()`.  Each substitution is
modelled as a structurally recursive function over the character list. -/

/-- `str.strip()`: remove leading and trailing whitespace. -/
def pyStrip (l : List Char) : List Char :=
  ((l.dropWhile Char.isWhitespace).reverse.dropWhile Char.isWhitespace).reverse

/-- `re.sub(r"[^\w\s]", " ", name)`: non-word, non-whitespace characters become spaces. -/
def subNonWord (l : List Char) : List Char :=
  l.map (fun c => if isWordB c || c.isWhitespace then c else ' ')

/-- `re.sub(r"([a-z0-9])([A-Z])", r"\1_\2", name)`: insert `_` at a camel-case
boundary; the regex engine resumes scanning after each two-character match. -/
def camelSub : List Char → List Char
  | [] => []
  | [c] => [c]
  | c1 :: c2 :: t =>
    if (c1.isLower || c1.isDigit) && c2.isUpper then c1 :: '_' :: c2 :: camelSub t
    else c1 :: camelSub (c2 :: t)

/-- `re.sub(r"[\s\-]+", "_", name)`: each maximal run of whitespace/hyphens
becomes a single underscore.  The flag records whether we are inside a run. -/
def wsToUnderscore : Bool → List Char → List Char
  | _, [] => []
  | inRun, c :: t =>
    if wsHyph c then
      (if inRun then wsToUnderscore true t else '_' :: wsToUnderscore true t)
    else c :: wsToUnderscore false t

/-- `re.sub(r"_+", "_", name)`: collapse each run of underscores to one. -/
def squeezeUnderscore : Bool → List Char → List Char
  | _, [] => []
  | inRun, c :: t =>
    if c == '_' then
      (if inRun then squeezeUnderscore true t else '_' :: squeezeUnderscore true t)
    else c :: squeezeUnderscore false t

/-- `str.strip("_")`: remove leading and trailing underscores. -/
def stripUnderscore (l : List Char) : List Char :=
  ((l.dropWhile (fun c => c == '_')).reverse.dropWhile (fun c => c == '_')).reverse

/-- Python `str.lower()` on one character of the label alphabet: ASCII
uppercase letters map down, the dotted capital I maps to `'i'` plus the
combining dot above (full case mapping), everything else is fixed (Lean's
`Char.toLower` fixes every non-ASCII character). -/
def pyLower (c : Char) : List Char :=
  if c == capIDot then ['i', dotAbove] else [c.toLower]

/-- The character-list pipeline of `to_snake_case`. -/
def snakeList (l : List Char) : List Char :=
  (stripUnderscore (squeezeUnderscore false (wsToUnderscore false
    (camelSub (subNonWord (pyStrip l)))))).flatMap pyLower

/-- `to_snake_case` (source lines 35-41). -/
def to_snake_case (s : String) : String := String.mk (snakeList s.data)

/-! ### Idempotence of the column normalizer -/

/-- No two adjacent underscores. -/
def noDD (l : List Char) : Prop := List.Chain' (fun a b => ¬(a = '_' ∧ b = '_')) l

instance : DecidablePred noDD := fun l =>
  inferInstanceAs (Decidable (List.Chain' (fun a b => ¬(a = '_' ∧ b = '_')) l))

theorem dropWhile_eq_self_of_all {p : Char → Bool} {l : List Char}
    (h : ∀ c ∈ l, p c = false) : l.dropWhile p = l := by
  cases l with
  | nil => rfl
  | cons c t =>
      rw [List.dropWhile_cons, if_neg]
      rw [h c (by simp)]
      simp

theorem pyStrip_eq_self {l : List Char} (h : ∀ c ∈ l, c.isWhitespace = false) :
    pyStrip l = l := by
  unfold pyStrip
  rw [dropWhile_eq_self_of_all h, dropWhile_eq_self_of_all (fun c hc => h c (by
    rw [List.mem_reverse] at hc; exact hc)), List.reverse_reverse]

theorem subNonWord_eq_self {l : List Char} (h : ∀ c ∈ l, isWordB c = true) :
    subNonWord l = l := by
  unfold subNonWord
  conv_rhs => rw [← List.map_id l]
  refine List.map_congr_left ?_
  intro c hc
  rw [if_pos]
  · rfl
  · rw [h c hc]
    simp

theorem camelSub_eq_self {l : List Char} (h : ∀ c ∈ l, c.isUpper = false) :
    camelSub l = l := by
  induction l using camelSub.induct with
  | case1 => rfl
  | case2 c => rfl
  | case3 c1 c2 t hc ih =>
      exfalso
      rw [Bool.and_eq_true] at hc
      have := h c2 (by simp)
      rw [this] at hc
      exact Bool.false_ne_true hc.2
  | case4 c1 c2 t hc ih =>
      rw [camelSub, if_neg hc, ih]
      intro c hcm
      exact h c (by simp [hcm])

theorem wsToUnderscore_eq_self (b : Bool) {l : List Char}
    (h : ∀ c ∈ l, wsHyph c = false) : wsToUnderscore b l = l := by
  induction l generalizing b with
  | nil => rfl
  | cons c t ih =>
      rw [wsToUnderscore, if_neg (by rw [h c (by simp)]; simp),
        ih false (fun c hc => h c (by simp [hc]))]

theorem squeezeUnderscore_eq_self {l : List Char} (h : noDD l) :
    squeezeUnderscore false l = l ∧ (l.head? ≠ some '_' → squeezeUnderscore true l = l) := by
  induction l with
  | nil => exact ⟨rfl, fun _ => rfl⟩
  | cons c t ih =>
      unfold noDD at h
      rw [List.chain'_cons'] at h
      obtain ⟨hhead, htail⟩ := h
      obtain ⟨ih1, ih2⟩ := ih htail
      by_cases hc : c = '_'
      · subst hc
        have ht : t.head? ≠ some '_' := by
          intro hcon
          exact (hhead _ hcon) ⟨rfl, rfl⟩
        constructor
        · rw [squeezeUnderscore, if_pos (by simp), if_neg (by simp), ih2 ht]
        · intro hno
          exfalso
          exact hno rfl
      · constructor
        · rw [squeezeUnderscore, if_neg (by simp [hc]), ih1]
        · intro _
          rw [squeezeUnderscore, if_neg (by simp [hc]), ih1]

theorem head?_dropWhile {p : Char → Bool} {l : List Char} {c : Char}
    (h : (l.dropWhile p).head? = some c) : p c = false := by
  induction l with
  | nil => simp [List.dropWhile] at h
  | cons a t ih =>
      rw [List.dropWhile_cons] at h
      by_cases ha : p a = true
      · rw [if_pos ha] at h
        exact ih h
      · rw [if_neg ha] at h
        simp only [List.head?_cons, Option.some_inj] at h
        subst h
        exact Bool.not_eq_true _ |>.mp ha

theorem stripUnderscore_eq_self {l : List Char}
    (h1 : l.head? ≠ some '_') (h2 : l.getLast? ≠ some '_') : stripUnderscore l = l := by
  unfold stripUnderscore
  have d1 : l.dropWhile (fun c => c == '_') = l := by
    cases hl : l with
    | nil => rfl
    | cons a t =>
        rw [List.dropWhile_cons, if_neg]
        subst hl
        simp only [List.head?_cons, ne_eq, Option.some_inj] at h1
        simp [h1]
  rw [d1]
  have d2 : l.reverse.dropWhile (fun c => c == '_') = l.reverse := by
    cases hl : l.reverse with
    | nil => rfl
    | cons a t =>
        rw [List.dropWhile_cons, if_neg]
        have : l.reverse.head? = some a := by rw [hl]; rfl
        rw [List.head?_reverse] at this
        rw [this] at h2
        simp only [ne_eq, Option.some_inj] at h2
        simp [h2]
  rw [d2, List.reverse_reverse]

theorem map_toLower_eq_self {l : List Char} (h : ∀ c ∈ l, c.isUpper = false) :
    l.map Char.toLower = l := by
  conv_rhs => rw [← List.map_id l]
  refine List.map_congr_left ?_
  intro c hc
  exact toLower_eq_self (h c hc)

theorem mem_pyStrip {l : List Char} {c : Char} (h : c ∈ pyStrip l) : c ∈ l := by
  unfold pyStrip at h
  rw [List.mem_reverse] at h
  have h1 := (List.dropWhile_suffix _).subset h
  rw [List.mem_reverse] at h1
  exact (List.dropWhile_suffix _).subset h1

theorem mem_subNonWord {l : List Char} {c : Char} (h : c ∈ subNonWord l) :
    (isWordB c || c.isWhitespace) = true := by
  unfold subNonWord at h
  rw [List.mem_map] at h
  obtain ⟨a, _, ha⟩ := h
  by_cases hc : (isWordB a || a.isWhitespace) = true
  · rw [if_pos hc] at ha
    subst ha
    exact hc
  · rw [if_neg hc] at ha
    subst ha
    rfl

theorem mem_camelSub {l : List Char} {c : Char} (h : c ∈ camelSub l) :
    c ∈ l ∨ c = '_' := by
  induction l using camelSub.induct with
  | case1 => simp [camelSub] at h
  | case2 a =>
      rw [camelSub] at h
      exact Or.inl h
  | case3 c1 c2 t hc ih =>
      rw [camelSub, if_pos hc] at h
      simp only [List.mem_cons] at h
      rcases h with h | h | h | h
      · exact Or.inl (by simp [h])
      · exact Or.inr h
      · exact Or.inl (by simp [h])
      · rcases ih h with h' | h'
        · exact Or.inl (by simp [h'])
        · exact Or.inr h'
  | case4 c1 c2 t hc ih =>
      rw [camelSub, if_neg hc] at h
      simp only [List.mem_cons] at h
      rcases h with h | h
      · exact Or.inl (by simp [h])
      · rcases ih h with h' | h'
        · exact Or.inl (by simp only [List.mem_cons] at h' ⊢; tauto)
        · exact Or.inr h'

theorem mem_wsToUnderscore {b : Bool} {l : List Char} {c : Char}
    (h : c ∈ wsToUnderscore b l) : (c ∈ l ∧ wsHyph c = false) ∨ c = '_' := by
  induction l generalizing b with
  | nil => simp [wsToUnderscore] at h
  | cons a t ih =>
      rw [wsToUnderscore] at h
      by_cases ha : wsHyph a = true
      · rw [if_pos ha] at h
        cases b with
        | true =>
            rcases ih h with h' | h'
            · exact Or.inl ⟨by simp [h'.1], h'.2⟩
            · exact Or.inr h'
        | false =>
            rw [if_neg Bool.false_ne_true] at h
            simp only [List.mem_cons] at h
            rcases h with h | h
            · exact Or.inr h
            · rcases ih h with h' | h'
              · exact Or.inl ⟨by simp [h'.1], h'.2⟩
              · exact Or.inr h'
      · rw [if_neg ha] at h
        simp only [List.mem_cons] at h
        rcases h with h | h
        · subst h
          exact Or.inl ⟨by simp, by rw [Bool.not_eq_true] at ha; exact ha⟩
        · rcases ih h with h' | h'
          · exact Or.inl ⟨by simp [h'.1], h'.2⟩
          · exact Or.inr h'

theorem mem_squeezeUnderscore {b : Bool} {l : List Char} {c : Char}
    (h : c ∈ squeezeUnderscore b l) : c ∈ l := by
  induction l generalizing b with
  | nil => simp [squeezeUnderscore] at h
  | cons a t ih =>
      rw [squeezeUnderscore] at h
      by_cases ha : (a == '_') = true
      · rw [if_pos ha] at h
        cases b with
        | true => exact List.mem_cons_of_mem a (ih h)
        | false =>
            rw [if_neg Bool.false_ne_true] at h
            simp only [List.mem_cons] at h
            rcases h with h | h
            · rw [beq_iff_eq] at ha
              simp [h, ha]
            · exact List.mem_cons_of_mem a (ih h)
      · rw [if_neg ha] at h
        simp only [List.mem_cons] at h
        rcases h with h | h
        · simp [h]
        · exact List.mem_cons_of_mem a (ih h)

theorem mem_stripUnderscore {l : List Char} {c : Char} (h : c ∈ stripUnderscore l) : c ∈ l := by
  unfold stripUnderscore at h
  rw [List.mem_reverse] at h
  have h1 := (List.dropWhile_suffix _).subset h
  rw [List.mem_reverse] at h1
  exact (List.dropWhile_suffix _).subset h1

theorem head?_squeezeUnderscore_true {l : List Char} :
    (squeezeUnderscore true l).head? ≠ some '_' := by
  induction l with
  | nil => simp [squeezeUnderscore]
  | cons a t ih =>
      rw [squeezeUnderscore]
      by_cases ha : (a == '_') = true
      · rw [if_pos ha, if_pos rfl]
        exact ih
      · rw [if_neg ha]
        simp only [List.head?_cons, ne_eq, Option.some_inj]
        rw [beq_iff_eq] at ha
        exact ha

theorem noDD_squeezeUnderscore (l : List Char) (b : Bool) :
    noDD (squeezeUnderscore b l) := by
  induction l generalizing b with
  | nil => exact List.chain'_nil
  | cons a t ih =>
      rw [squeezeUnderscore]
      by_cases ha : (a == '_') = true
      · rw [if_pos ha]
        cases b with
        | true => exact ih true
        | false =>
            rw [if_neg (by simp)]
            unfold noDD
            rw [List.chain'_cons']
            refine ⟨?_, ih true⟩
            intro h hh
            intro hcon
            exact head?_squeezeUnderscore_true (by rw [hh, hcon.2])
  
      · rw [if_neg ha]
        unfold noDD
        rw [List.chain'_cons']
        refine ⟨?_, ih false⟩
        intro h hh hcon
        rw [beq_iff_eq] at ha
        exact ha hcon.1

theorem noDD_stripUnderscore {l : List Char} (h : noDD l) : noDD (stripUnderscore l) := by
  unfold stripUnderscore noDD
  rw [List.chain'_reverse]
  have h1 : noDD (l.dropWhile (fun c => c == '_')) := by
    obtain ⟨t, ht⟩ := List.dropWhile_suffix (l := l) (fun c => c == '_')
    unfold noDD
    rw [← ht] at h
    exact h.right_of_append
  have h2 : noDD (l.dropWhile (fun c => c == '_')).reverse := by
    unfold noDD
    rw [List.chain'_reverse]
    refine List.Chain'.imp ?_ h1
    intro a b hab hcon
    exact hab ⟨hcon.2, hcon.1⟩
  obtain ⟨t, ht⟩ := List.dropWhile_suffix
    (l := (l.dropWhile (fun c => c == '_')).reverse) (fun c => c == '_')
  unfold noDD at h2
  rw [← ht] at h2
  refine List.Chain'.imp ?_ h2.right_of_append
  intro a b hab hcon
  exact hab ⟨hcon.2, hcon.1⟩

theorem noDD_map_toLower {l : List Char} (h : noDD l) : noDD (l.map Char.toLower) := by
  unfold noDD at h ⊢
  rw [List.chain'_map]
  refine List.Chain'.imp ?_ h
  intro a b hab hcon
  exact hab ⟨toLower_underscore_iff.mp hcon.1, toLower_underscore_iff.mp hcon.2⟩

theorem head?_stripUnderscore {l : List Char} :
    (stripUnderscore l).head? ≠ some '_' := by
  unfold stripUnderscore
  intro hcon
  rw [List.head?_reverse] at hcon
  have h1 : (l.dropWhile (fun c => c == '_')).reverse.getLast? ≠ some '_' := by
    rw [List.getLast?_reverse]
    intro hc
    have := head?_dropWhile hc
    simp at this
  cases hd2 : (l.dropWhile (fun c => c == '_')).reverse.dropWhile (fun c => c == '_') with
  | nil => rw [hd2] at hcon; exact Option.noConfusion hcon
  | cons a t =>
      obtain ⟨s, hs⟩ := List.dropWhile_suffix
        (l := (l.dropWhile (fun c => c == '_')).reverse) (fun c => c == '_')
      rw [hd2] at hcon hs
      apply h1
      rw [← hs, List.getLast?_append_of_ne_nil s (by simp), ← hcon]

theorem getLast?_stripUnderscore {l : List Char} :
    (stripUnderscore l).getLast? ≠ some '_' := by
  unfold stripUnderscore
  rw [List.getLast?_reverse]
  intro hc
  have := head?_dropWhile hc
  simp at this

theorem goodChar_ascii {c : Char} (h : goodChar c = true) : c.toNat < 128 := by
  rw [goodChar_iff] at h
  omega

theorem pyLower_ascii {c : Char} (h : c.toNat < 128) : pyLower c = [c.toLower] := by
  have hne : ¬ c = capIDot := by
    rw [charEq_iff_toNat]
    have h304 : capIDot.toNat = 304 := rfl
    omega
  unfold pyLower
  rw [if_neg (by simp [hne])]

theorem flatMap_pyLower_ascii {l : List Char} (h : ∀ c ∈ l, c.toNat < 128) :
    l.flatMap pyLower = l.map Char.toLower := by
  induction l with
  | nil => rfl
  | cons a t ih =>
      rw [List.flatMap_cons, List.map_cons, pyLower_ascii (h a (by simp)),
        ih (fun c hc => h c (by simp [hc]))]
      rfl

/-- Provenance through `subNonWord`: every output character is an input
character or the inserted space. -/
theorem mem_subNonWord_orig {l : List Char} {c : Char} (h : c ∈ subNonWord l) :
    c ∈ l ∨ c = ' ' := by
  unfold subNonWord at h
  rw [List.mem_map] at h
  obtain ⟨a, ha, hc⟩ := h
  by_cases hcc : (isWordB a || a.isWhitespace) = true
  · rw [if_pos hcc] at hc
    subst hc
    exact Or.inl ha
  · rw [if_neg hcc] at hc
    subst hc
    exact Or.inr rfl

/-- On an ASCII input every character surviving to the lowering step is
ASCII. -/
theorem snakePre_ascii {l : List Char} (h : ∀ c ∈ l, c.toNat < 128) :
    ∀ c ∈ stripUnderscore (squeezeUnderscore false (wsToUnderscore false
      (camelSub (subNonWord (pyStrip l))))), c.toNat < 128 := by
  intro c hc
  have h1 := mem_stripUnderscore hc
  have h2 := mem_squeezeUnderscore h1
  rcases mem_wsToUnderscore h2 with ⟨h3, _⟩ | h3
  · rcases mem_camelSub h3 with h4 | h4
    · rcases mem_subNonWord_orig h4 with h5 | h5
      · exact h c (mem_pyStrip h5)
      · subst h5
        decide
    · subst h4
      decide
  · subst h3
    decide

/-- On an ASCII input the lowering step is the plain character map. -/
theorem snakeList_ascii_eq {l : List Char} (h : ∀ c ∈ l, c.toNat < 128) :
    snakeList l = (stripUnderscore (squeezeUnderscore false (wsToUnderscore false
      (camelSub (subNonWord (pyStrip l)))))).map Char.toLower := by
  unfold snakeList
  exact flatMap_pyLower_ascii (snakePre_ascii h)

theorem snakeList_all_good {l : List Char} (hA : ∀ c ∈ l, c.toNat < 128) :
    ∀ c ∈ snakeList l, goodChar c = true := by
  intro c hc
  rw [snakeList_ascii_eq hA] at hc
  rw [List.mem_map] at hc
  obtain ⟨a, ha, rfl⟩ := hc
  refine toLower_goodChar ?_ (snakePre_ascii hA a ha)
  have h1 := mem_stripUnderscore ha
  have h2 := mem_squeezeUnderscore h1
  rcases mem_wsToUnderscore h2 with ⟨h3, hh⟩ | h3
  · rcases mem_camelSub h3 with h4 | h4
    · have h5 := mem_subNonWord h4
      rw [Bool.or_eq_true] at h5
      rcases h5 with h5 | h5
      · exact h5
      · exfalso
        rw [wsHyph, h5] at hh
        simp at hh
    · subst h4
      decide
  · subst h3
    decide

theorem snakeList_noDD {l : List Char} (hA : ∀ c ∈ l, c.toNat < 128) :
    noDD (snakeList l) := by
  rw [snakeList_ascii_eq hA]
  exact noDD_map_toLower (noDD_stripUnderscore (noDD_squeezeUnderscore _ false))

theorem snakeList_head? {l : List Char} (hA : ∀ c ∈ l, c.toNat < 128) :
    (snakeList l).head? ≠ some '_' := by
  rw [snakeList_ascii_eq hA]
  rw [List.head?_map]
  intro hcon
  cases hh : (stripUnderscore (squeezeUnderscore false (wsToUnderscore false
      (camelSub (subNonWord (pyStrip l)))))).head? with
  | none => rw [hh] at hcon; exact Option.noConfusion hcon
  | some a =>
      rw [hh] at hcon
      have : Char.toLower a = '_' := Option.some_inj.mp hcon
      exact head?_stripUnderscore (by rw [hh, toLower_underscore_iff.mp this])

theorem snakeList_getLast? {l : List Char} (hA : ∀ c ∈ l, c.toNat < 128) :
    (snakeList l).getLast? ≠ some '_' := by
  rw [snakeList_ascii_eq hA]
  rw [List.getLast?_map]
  intro hcon
  cases hh : (stripUnderscore (squeezeUnderscore false (wsToUnderscore false
      (camelSub (subNonWord (pyStrip l)))))).getLast? with
  | none => rw [hh] at hcon; exact Option.noConfusion hcon
  | some a =>
      rw [hh] at hcon
      have : Char.toLower a = '_' := Option.some_inj.mp hcon
      exact getLast?_stripUnderscore (by rw [hh, toLower_underscore_iff.mp this])

theorem snakeList_idem {l : List Char} (hA : ∀ c ∈ l, c.toNat < 128) :
    snakeList (snakeList l) = snakeList l := by
  have hg := snakeList_all_good hA
  have hnodd := snakeList_noDD hA
  have hh := snakeList_head? hA
  have hl := snakeList_getLast? hA
  set m := snakeList l with hm
  have hAm : ∀ c ∈ m, c.toNat < 128 := fun c hc => goodChar_ascii (hg c hc)
  conv_lhs => rw [snakeList]
  rw [pyStrip_eq_self (fun c hc => goodChar_not_ws (hg c hc)),
      subNonWord_eq_self (fun c hc => goodChar_isWordB (hg c hc)),
      camelSub_eq_self (fun c hc => goodChar_not_upper (hg c hc)),
      wsToUnderscore_eq_self false (fun c hc => goodChar_not_hyph (hg c hc)),
      (squeezeUnderscore_eq_self hnodd).1,
      stripUnderscore_eq_self hh hl,
      flatMap_pyLower_ascii hAm,
      map_toLower_eq_self (fun c hc => goodChar_not_upper (hg c hc))]

/-- C9 (amended): the column normalizer is idempotent on every label string
made of ASCII characters; on full Unicode it is not (see
`to_snake_case_not_idempotent_cex`). -/
theorem to_snake_case_idempotent_ascii (x : String)
    (h : ∀ c ∈ x.data, c.toNat < 128) :
    to_snake_case (to_snake_case x) = to_snake_case x := by
  unfold to_snake_case
  rw [show (String.mk (snakeList x.data)).data = snakeList x.data from rfl, snakeList_idem h]

/-- Witness for `to_snake_case_idempotent_ascii` at an ASCII label. -/
theorem to_snake_case_idempotent_ascii_witness :
    (∀ c ∈ ("  Molecular Weight" : String).data, c.toNat < 128)
    ∧ to_snake_case (to_snake_case "  Molecular Weight")
        = to_snake_case "  Molecular Weight" :=
  ⟨by decide, to_snake_case_idempotent_ascii "  Molecular Weight" (by decide)⟩

/-- C9 (counterexample): the normalizer is NOT idempotent on every label
string.  `"İ"` (U+0130) is a word character, survives every substitution,
and lowers to `"i"` followed by the combining dot above (Python's full case
mapping); on a second pass the combining dot is neither a word character
nor whitespace, becomes a space, then an underscore, and is stripped,
leaving the strictly shorter `"i"`. -/
theorem to_snake_case_not_idempotent_cex :
    to_snake_case (String.mk [capIDot]) = String.mk ['i', dotAbove]
    ∧ to_snake_case (to_snake_case (String.mk [capIDot])) = "i"
    ∧ String.mk ['i', dotAbove] ≠ "i"
    ∧ isWordB capIDot = true
    ∧ isWordB dotAbove = false
    ∧ dotAbove.isWhitespace = false := by
  refine ⟨?_, ?_, ?_, ?_, ?_, ?_⟩ <;> decide

example : to_snake_case "  Molecular Weight" = "molecular_weight" := by decide
example : to_snake_case "Compound CID" = "compound_cid" := by decide
example : to_snake_case "XLogP3-AA" = "xlog_p3_aa" := by decide
example : to_snake_case "measuredLogSolubility" = "measured_log_solubility" := by decide

/-! ## The tabular data model

A pandas `DataFrame` is modelled column-orientedly: an explicit row-label
list (`index`, the pandas integer index) and an association list of column
name to cell list.  A cell is a finite float (exact rational), a string, or
the missing marker `NaN` (`Cell.na`).  Machine floats are modelled as exact
rationals; `astype(str)` of a non-integer float and non-ASCII labels are the
only divergences, and no theorem below depends on them. -/

inductive Cell where
  | na : Cell
  | num : ℚ → Cell
  | str : String → Cell
deriving DecidableEq

structure DF where
  index : List Nat
  cols : List (String × List Cell)
deriving DecidableEq

def DF.nrows (df : DF) : Nat := df.index.length

def DF.colNames (df : DF) : List String := df.cols.map Prod.fst

def DF.getCol? (df : DF) (c : String) : Option (List Cell) :=
  (df.cols.find? (fun p => p.1 == c)).map Prod.snd

def DF.hasCol (df : DF) (c : String) : Bool := (df.getCol? c).isSome

/-- `df[c]` at call sites where the column is guaranteed to be present
(created or checked earlier in the same source function); pandas would raise
`KeyError` otherwise, and the only pipeline access that can actually fail,
`prepare_pubchem`'s `out["compound_cid"]`, is modelled separately with
`Except`. -/
def DF.colGet (df : DF) (c : String) : List Cell :=
  (df.getCol? c).getD (List.replicate df.nrows Cell.na)

def setColList : List (String × List Cell) → String → List Cell → List (String × List Cell)
  | [], c, v => [(c, v)]
  | p :: t, c, v => if p.1 == c then (c, v) :: t else p :: setColList t c v

/-- `df[c] = v`: overwrite an existing column in place, or append a new one. -/
def DF.setCol (df : DF) (c : String) (v : List Cell) : DF :=
  { index := df.index, cols := setColList df.cols c v }

/-- `df[c] = scalar`. -/
def DF.setScalar (df : DF) (c : String) (x : Cell) : DF :=
  df.setCol c (List.replicate df.nrows x)

/-- Positional row selection with padding (used for dedup/sort reindexing). -/
def selectPos (is : List Nat) (pad : α) (l : List α) : List α :=
  is.map (fun i => l.getD i pad)

/-- The `i`-th row of the table as a cell tuple (used by `drop_duplicates`). -/
def DF.row (df : DF) (i : Nat) : List Cell := df.cols.map (fun p => p.2.getD i Cell.na)

/-- Positions of rows kept by `df.drop_duplicates()` (first occurrence wins;
pandas compares NaN equal to NaN here, as does `Cell` equality). -/
def dropDupKeep (df : DF) : List Nat :=
  (List.range df.nrows).filter (fun i => !(decide (df.row i ∈ (List.range i).map df.row)))

/-- `df.drop_duplicates()`: keeps the original index labels. -/
def DF.dropDuplicates (df : DF) : DF :=
  { index := selectPos (dropDupKeep df) 0 df.index,
    cols := df.cols.map (fun p => (p.1, selectPos (dropDupKeep df) Cell.na p.2)) }

/-- `normalize_columns` (source lines 44-47). -/
def normalize_columns (df : DF) : DF :=
  { index := df.index, cols := df.cols.map (fun p => (to_snake_case p.1, p.2)) }

/-- Row reordering by an indexer followed by `reset_index(drop=True)`. -/
def DF.takeRowsReset (df : DF) (is : List Nat) : DF :=
  { index := List.range is.length,
    cols := df.cols.map (fun p => (p.1, selectPos is Cell.na p.2)) }

/-- `df[names]` column projection. -/
def DF.project (df : DF) (names : List String) : DF :=
  { index := df.index, cols := names.map (fun c => (c, df.colGet c)) }

/-! ### Numeric primitives (float parsing, quantiles, medians, min-max) -/

def digitsNum (l : List Char) : Nat := l.foldl (fun acc c => acc * 10 + (c.toNat - 48)) 0

/-- Mantissa of a Python float literal: `digits`, `digits.digits`, `.digits` or `digits.`. -/
def parseMantissa (l : List Char) : Option ℚ :=
  match l.splitOn '.' with
  | [ip] => if ip ≠ [] ∧ ip.all Char.isDigit then some (digitsNum ip : ℚ) else none
  | [ip, fp] =>
      if (ip ++ fp) ≠ [] ∧ (ip ++ fp).all Char.isDigit then
        some ((digitsNum ip : ℚ) + (digitsNum fp : ℚ) / (10 : ℚ) ^ fp.length)
      else none
  | _ => none

def parseExp (l : List Char) : Option ℤ :=
  match l with
  | '+' :: t => if t ≠ [] ∧ t.all Char.isDigit then some ((digitsNum t : ℤ)) else none
  | '-' :: t => if t ≠ [] ∧ t.all Char.isDigit then some (-(digitsNum t : ℤ)) else none
  | t => if t ≠ [] ∧ t.all Char.isDigit then some ((digitsNum t : ℤ)) else none

/-- Python/pandas float parsing (finite decimal literals with optional sign
and exponent; `inf`/`nan` literals are treated as unparseable, which coincides
with the missing result `pd.to_numeric` gives them). -/
def pyParseFloat? (s : String) : Option ℚ :=
  let l0 := (pyStrip s.data).map Char.toLower
  let sl := match l0 with
    | '+' :: t => ((1 : ℚ), t)
    | '-' :: t => ((-1 : ℚ), t)
    | t => ((1 : ℚ), t)
  match sl.2.splitOn 'e' with
  | [m] => (parseMantissa m).map (fun v => sl.1 * v)
  | [m, e] =>
      match parseMantissa m, parseExp e with
      | some mv, some ev => some (sl.1 * mv * (10 : ℚ) ^ ev)
      | _, _ => none
  | _ => none

/-- `str(value)` for a cell (pandas `astype(str)`): `NaN` prints as `"nan"`;
integral floats are printed without a fractional part. -/
def cellToStr : Cell → String
  | .na => "nan"
  | .str s => s
  | .num q => if q.den = 1 then toString q.num else toString q

/-- `pd.to_numeric(·, errors="coerce")` on one cell. -/
def toNumericCell : Cell → Cell
  | .na => .na
  | .num q => .num q
  | .str s => match pyParseFloat? s with
    | some q => .num q
    | none => .na

def cellQ? : Cell → Option ℚ
  | .num q => some q
  | _ => none

def isStrCell : Cell → Bool
  | .str _ => true
  | _ => false

/-- Numeric dtype test for a column (`select_dtypes(include=[np.number])`):
a column holding any string is object-typed. -/
def isNumericColB (v : List Cell) : Bool := v.all (fun c => !(isStrCell c))

/-- Object dtype test (`select_dtypes(include=["object"])`). -/
def isObjectColB (v : List Cell) : Bool := v.any isStrCell

/-- `min`/`max`/`abs` on exact rationals, written with an explicit
comparison so that concrete evaluations reduce in the kernel. -/
def qmin (a b : ℚ) : ℚ := if a ≤ b then a else b

def qmax (a b : ℚ) : ℚ := if a ≤ b then b else a

def qabs (a : ℚ) : ℚ := if a < 0 then -a else a

def listMin? : List ℚ → Option ℚ
  | [] => none
  | a :: t => match listMin? t with
    | none => some a
    | some m => some (qmin a m)

def listMax? : List ℚ → Option ℚ
  | [] => none
  | a :: t => match listMax? t with
    | none => some a
    | some m => some (qmax a m)

def sortedQ (l : List ℚ) : List ℚ := l.insertionSort (· ≤ ·)

/-- `Series.median(skipna=True)` over the non-missing values. -/
def medianQ? (l : List ℚ) : Option ℚ :=
  let s := sortedQ l
  let n := s.length
  if n = 0 then none
  else if n % 2 = 1 then some (s.getD (n / 2) 0)
  else some ((s.getD (n / 2 - 1) 0 + s.getD (n / 2) 0) / 2)

/-- `Series.quantile(q)` with pandas' default linear interpolation. -/
def quantileQ (l : List ℚ) (q : ℚ) : Option ℚ :=
  let s := sortedQ l
  let n := s.length
  if n = 0 then none
  else
    let h : ℚ := q * ((n : ℚ) - 1)
    let i : Nat := h.floor.toNat
    let lo := s.getD i 0
    let hi := s.getD (i + 1) lo
    some (lo + (h - (i : ℚ)) * (hi - lo))

/-- `minmax` (source lines 99-105). -/
def minmax (v : List Cell) : List Cell :=
  let s := v.map toNumericCell
  let vals := s.filterMap cellQ?
  match listMin? vals, listMax? vals with
  | some mn, some mx =>
      if mn = mx then List.replicate s.length (Cell.num 0)
      else s.map (fun c => match c with
        | .num q => Cell.num ((q - mn) / (mx - mn))
        | _ => Cell.na)
  | _, _ => List.replicate s.length (Cell.num 0)

/-- `Series.clip(lower, upper)` on one cell (`NaN` passes through). -/
def clipCellQ (lo hi : ℚ) : Cell → Cell
  | .num q => .num (qmin hi (qmax lo q))
  | c => c

/-- Winsorization of one numeric column at the 1st/99th percentile
(body of the loop in `clip_numeric_outliers`, source lines 85-95). -/
def winsorizeCol (v : List Cell) : List Cell :=
  let vals := v.filterMap cellQ?
  if vals.isEmpty then v
  else
    match quantileQ vals (1/100), quantileQ vals (99/100) with
    | some q1, some q99 => if q1 = q99 then v else v.map (clipCellQ q1 q99)
    | _, _ => v

/-- `clip_numeric_outliers` (source lines 81-96). -/
def clip_numeric_outliers (df : DF) (ignore : List String) : DF :=
  { index := df.index,
    cols := df.cols.map (fun p =>
      if isNumericColB p.2 && !(ignore.contains p.1) then (p.1, winsorizeCol p.2) else p) }

/-- First-occurrence union of column names, as `pd.concat(..., sort=False)`
produces it. -/
def dedupFirstAux : List String → List String → List String
  | _, [] => []
  | seen, a :: t =>
      if seen.contains a then dedupFirstAux seen t else a :: dedupFirstAux (a :: seen) t

/-- `pd.concat(dfs, ignore_index=True, sort=False)`: union of columns in
first-appearance order; frames lacking a column contribute `NaN` rows. -/
def concatDF (dfs : List DF) : DF :=
  let names := dedupFirstAux [] (dfs.map DF.colNames).flatten
  { index := List.range (dfs.foldl (fun acc d => acc + d.nrows) 0),
    cols := names.map (fun c =>
      (c, (dfs.map (fun d => (d.getCol? c).getD (List.replicate d.nrows Cell.na))).flatten)) }

/-! ## Source adapters (source lines 132-230) -/

/-- `astype(str).str.strip().replace({"nan": NaN, "": NaN})` on one cell. -/
def stripStrCell (c : Cell) : Cell :=
  let s := String.mk (pyStrip (cellToStr c).data)
  if s = "nan" ∨ s = "" then .na else .str s

/-- The object-column cleaning loop of `prepare_pubchem` (source lines 136-138). -/
def stripObjectStrings (df : DF) : DF :=
  { index := df.index,
    cols := df.cols.map (fun p => if isObjectColB p.2 then (p.1, p.2.map stripStrCell) else p) }

def stripDotZero (s : String) : String := if s.endsWith ".0" then s.dropRight 2 else s

def daysInMonth (y m : Nat) : Nat :=
  if m = 2 then (if (y % 4 = 0 ∧ y % 100 ≠ 0) ∨ y % 400 = 0 then 29 else 28)
  else if m = 4 ∨ m = 6 ∨ m = 9 ∨ m = 11 then 30 else 31

def pad2 (n : Nat) : String := if n < 10 then "0" ++ toString n else toString n

def pad4 (n : Nat) : String :=
  if n < 10 then "000" ++ toString n
  else if n < 100 then "00" ++ toString n
  else if n < 1000 then "0" ++ toString n
  else toString n

def parseYYYYMMDD (s : String) : Option (Nat × Nat × Nat) :=
  let l := s.data
  if l.length = 8 ∧ l.all Char.isDigit then
    let y := digitsNum (l.take 4)
    let m := digitsNum ((l.drop 4).take 2)
    let d := digitsNum (l.drop 6)
    if 1 ≤ m ∧ m ≤ 12 ∧ 1 ≤ d ∧ d ≤ daysInMonth y m then some (y, m, d) else none
  else none

/-- `pd.to_datetime(·, format="%Y%m%d", errors="coerce")` then
`strftime("%Y-%m-%d")` on one cell (calendar validation modelled; the
pandas `Timestamp` year range is not). -/
def dateCell (c : Cell) : Cell :=
  match parseYYYYMMDD (stripDotZero (cellToStr c)) with
  | some ymd => .str (pad4 ymd.1 ++ "-" ++ pad2 ymd.2.1 ++ "-" ++ pad2 ymd.2.2)
  | none => .na

/-- The `create_date` conversion of `prepare_pubchem` (source lines 140-144). -/
def dateStage (df : DF) : DF :=
  if df.hasCol "create_date" then
    df.setCol "create_date" ((df.colGet "create_date").map dateCell)
  else df

def pubchemKeep : List String :=
  ["compound_cid", "name", "smiles", "molecular_formula", "molecular_weight", "polar_area",
   "complexity", "xlogp", "heavy_atom_count", "h_bond_donor_count", "h_bond_acceptor_count",
   "rotatable_bond_count", "charge"]

def fillnaStrCol (v : List Cell) (s : String) : List Cell :=
  v.map (fun c => if c = .na then .str s else c)

/-- `prepare_pubchem` (source lines 132-174).  The unconditional
`out["compound_cid"]` access at line 167 raises `KeyError` when the
projection produced no such column, modelled with `Except.error`. -/
def prepare_pubchem (df : DF) : Except String DF :=
  let df1 := (normalize_columns df).dropDuplicates
  let df2 := stripObjectStrings df1
  let df3 := dateStage df2
  let df4 := clip_numeric_outliers df3 ["compound_cid"]
  let keep := pubchemKeep.filter (fun c => df4.hasCol c)
  let out0 := df4.project keep
  let out1 := out0.setScalar "source_dataset" (.str "pubchem_antibiotic")
  match out1.getCol? "compound_cid" with
  | none => .error "KeyError: compound_cid"
  | some cid =>
    let out2 := out1.setCol "candidate_id" (cid.map (fun c => Cell.str ("pubchem_" ++ cellToStr c)))
    let out3 := if out2.hasCol "name" then
        out2.setCol "name" (fillnaStrCol (out2.colGet "name") "unknown") else out2
    let out4 := if out3.hasCol "smiles" then
        out3.setCol "smiles" (fillnaStrCol (out3.colGet "smiles") "unknown") else out3
    .ok out4

def delaneyColMap : List (String × String) :=
  [("compound_id", "name"),
   ("number_of_h_bond_donors", "h_bond_donor_count"),
   ("number_of_rotatable_bonds", "rotatable_bond_count"),
   ("polar_surface_area", "polar_area"),
   ("measured_log_solubility_in_mols_per_litre", "measured_log_solubility"),
   ("esol_predicted_log_solubility_in_mols_per_litre", "predicted_log_solubility"),
   ("minimum_degree", "minimum_degree")]

def renameCol (df : DF) (src tgt : String) : DF :=
  { index := df.index, cols := df.cols.map (fun p => if p.1 == src then (tgt, p.2) else p) }

def delaneyKeep : List String :=
  ["name", "smiles", "molecular_weight", "h_bond_donor_count", "rotatable_bond_count",
   "polar_area", "measured_log_solubility", "predicted_log_solubility", "minimum_degree"]

/-- `prepare_delaney` (source lines 177-214).  `candidate_id` is
`"delaney_" + str(index_label)` over the post-dedup index labels. -/
def prepare_delaney (df : DF) : DF :=
  let df1 := (normalize_columns df).dropDuplicates
  let df2 := delaneyColMap.foldl (fun d sp =>
    if d.hasCol sp.1 && sp.1 != sp.2 then renameCol d sp.1 sp.2 else d) df1
  let df3 := clip_numeric_outliers df2 []
  let keep := delaneyKeep.filter (fun c => df3.hasCol c)
  let out0 := df3.project keep
  let out1 := out0.setScalar "source_dataset" (.str "delaney_solubility")
  let out2 := out1.setCol "candidate_id"
    (out1.index.map (fun i => Cell.str ("delaney_" ++ toString i)))
  let nameCol := (out2.getCol? "name").getD (List.replicate out2.nrows (Cell.str "unknown"))
  let out3 := out2.setCol "name" ((fillnaStrCol nameCol "unknown").map (fun c => Cell.str (cellToStr c)))
  let smilesCol := (out3.getCol? "smiles").getD (List.replicate out3.nrows (Cell.str "unknown"))
  out3.setCol "smiles" ((fillnaStrCol smilesCol "unknown").map (fun c => Cell.str (cellToStr c)))

/-- `prepare_quantum` (source lines 217-230).  Note: `candidate_id` is the
`molecule_id` string (or bare row position) with no source tag. -/
def prepare_quantum (df : DF) : DF :=
  let df1 := (normalize_columns df).dropDuplicates
  let df2 := ["binding_score", "toxicity", "stability", "solubility"].foldl (fun d c =>
    if d.hasCol c then d.setCol c ((d.colGet c).map (fun x => clipCellQ 0 1 (toNumericCell x)))
    else d) df1
  let out1 := df2.setScalar "source_dataset" (.str "quantum_candidates")
  let out2 := out1.setCol "candidate_id"
    (match out1.getCol? "molecule_id" with
     | some v => v.map (fun c => Cell.str (cellToStr c))
     | none => (List.range out1.nrows).map (fun i => Cell.str (toString i)))
  let out3 := out2.setCol "name"
    (match out2.getCol? "molecule_id" with
     | some v => v.map (fun c => Cell.str (cellToStr c))
     | none => List.replicate out2.nrows (Cell.str "unknown"))
  out3.setScalar "smiles" (.str "unknown")

/-! ## Harmonization and feature engineering (source lines 233-402) -/

def numericCandidates : List String :=
  ["molecular_weight", "polar_area", "complexity", "xlogp", "heavy_atom_count",
   "h_bond_donor_count", "h_bond_acceptor_count", "rotatable_bond_count", "charge",
   "binding_score", "toxicity", "stability", "solubility", "measured_log_solubility",
   "predicted_log_solubility", "minimum_degree"]

def criticalNumeric : List String :=
  ["molecular_weight", "polar_area", "h_bond_donor_count", "h_bond_acceptor_count",
   "rotatable_bond_count", "binding_score", "toxicity", "stability", "solubility", "complexity"]

/-- `combined["xlogp"].isna() | (pd.to_numeric(combined["xlogp"]) == 0)` per cell. -/
def missingLogpCell (c : Cell) : Bool := (c == Cell.na) || (toNumericCell c == Cell.num 0)

/-- `smiles.strip().lower() in {"", "unknown", "nan"}`. -/
def sentinelSmiles (s : String) : Bool :=
  let t := String.mk ((pyStrip s.data).map Char.toLower)
  t == "" || t == "unknown" || t == "nan"

/-- `compute_logp_from_smiles` (source lines 264-275); the RDKit computation
itself (`MolFromSmiles` + `MolLogP`, parse failures included) is the
environment-supplied `oracle`. -/
def computeLogpFromSmiles (oracle : String → Option ℚ) : Cell → Option ℚ
  | .na => none
  | .num _ => none
  | .str s => if sentinelSmiles s then none else oracle s

/-- `row.get(c)` on row `i`: `none` when the column is absent from the table. -/
def DF.rowGet (df : DF) (i : Nat) (c : String) : Option Cell :=
  (df.getCol? c).map (fun v => v.getD i Cell.na)

/-- `float(row.get(c) or 0.0)` inside `heuristic_logp`'s `try`: an absent key
gives `None` hence `0.0`; `0`, `0.0` and `""` are falsy hence `0.0`; `NaN` is
truthy and propagates; an unparseable string raises, caught as a missing
result. -/
def pyFloatOr0 : Option Cell → Option ℚ
  | none => some 0
  | some .na => none
  | some (.num q) => if q = 0 then some 0 else some q
  | some (.str s) => if s = "" then some 0 else pyParseFloat? s

/-- `heuristic_logp` (source lines 286-294). -/
def heuristic_logp (df : DF) (i : Nat) : Cell :=
  match pyFloatOr0 (df.rowGet i "molecular_weight"), pyFloatOr0 (df.rowGet i "polar_area") with
  | some mw, some pa => Cell.num (qmin 6 (qmax (-2) (2 + (mw - 350) / 250 - (pa - 50) / 200)))
  | _, _ => Cell.na

/-- The new `xlogp` column written by `combined.loc[missing_logp, "xlogp"] = ...`. -/
def xlogpUpdate (hasRd : Bool) (oracle : String → Option ℚ) (df : DF)
    (xl sm : List Cell) : List Cell :=
  (List.range xl.length).map (fun i =>
    if missingLogpCell (xl.getD i Cell.na) then
      (if hasRd then
        match computeLogpFromSmiles oracle (sm.getD i Cell.na) with
        | some q => Cell.num q
        | none => Cell.na
       else heuristic_logp df i)
    else xl.getD i Cell.na)

/-- The descriptor-estimation block (source lines 258-301).  `hasRd` models
the module-level `_HAS_RDKIT` flag. -/
def xlogpStage (hasRd : Bool) (oracle : String → Option ℚ) (df : DF) : DF :=
  if df.hasCol "smiles" then
    let df1 := if df.hasCol "xlogp" then df else df.setCol "xlogp" (List.replicate df.nrows Cell.na)
    let xl := df1.colGet "xlogp"
    if xl.any missingLogpCell then
      df1.setCol "xlogp" (xlogpUpdate hasRd oracle df1 xl (df1.colGet "smiles"))
    else df1
  else df

/-- The `pd.to_numeric` loop over `numeric_candidates` (source lines 302-304). -/
def numericCoerceStage (df : DF) : DF :=
  numericCandidates.foldl (fun d c =>
    if d.hasCol c then d.setCol c ((d.colGet c).map toNumericCell) else d) df

/-- One iteration of the critical-text loop (source lines 307-310); the
`fillna("unknown")` after `astype(str)` is a no-op since `astype(str)`
leaves no missing values. -/
def textFill (df : DF) (c : String) : DF :=
  let d1 := if df.hasCol c then df else df.setScalar c (.str "unknown")
  d1.setCol c ((d1.colGet c).map (fun x => Cell.str (cellToStr x)))

def textStage (df : DF) : DF :=
  ["candidate_id", "source_dataset", "name", "smiles"].foldl textFill df

/-- Median imputation of one column (source lines 328-331). -/
def imputeCol (v : List Cell) : List Cell :=
  let coerced := v.map toNumericCell
  let med := (medianQ? (coerced.filterMap cellQ?)).getD 0
  coerced.map (fun c => if c = Cell.na then Cell.num med else c)

/-- The imputation loop over `critical_numeric` (source lines 313-331). -/
def imputeStage (df : DF) : DF :=
  criticalNumeric.foldl (fun d c =>
    let d1 := if d.hasCol c then d else d.setCol c (List.replicate d.nrows Cell.na)
    d1.setCol c (imputeCol (d1.colGet c))) df

/-- The Delaney measured-solubility override (source lines 334-340):
`np.where(source == "delaney_solubility", minmax(measured), solubility)`. -/
def solOverrideStage (df : DF) : DF :=
  if df.hasCol "measured_log_solubility" then
    let scaled := minmax (df.colGet "measured_log_solubility")
    let src := df.colGet "source_dataset"
    let sol := df.colGet "solubility"
    df.setCol "solubility" ((List.range df.nrows).map (fun i =>
      if src.getD i Cell.na == Cell.str "delaney_solubility" then scaled.getD i Cell.na
      else sol.getD i Cell.na))
  else df

def lipinskiCheck (v : List Cell) (f : ℚ → Bool) : List ℚ :=
  v.map (fun c => match toNumericCell c with
    | .num q => if f q then 1 else 0
    | _ => 0)

def lipinskiChecks (df : DF) : List (List ℚ) :=
  (if df.hasCol "molecular_weight" then
    [lipinskiCheck (df.colGet "molecular_weight") (fun q => decide (q ≤ 500))] else []) ++
  (if df.hasCol "xlogp" then
    [lipinskiCheck (df.colGet "xlogp") (fun q => decide (-1/2 ≤ q ∧ q ≤ 5))] else []) ++
  (if df.hasCol "h_bond_donor_count" then
    [lipinskiCheck (df.colGet "h_bond_donor_count") (fun q => decide (q ≤ 5))] else []) ++
  (if df.hasCol "h_bond_acceptor_count" then
    [lipinskiCheck (df.colGet "h_bond_acceptor_count") (fun q => decide (q ≤ 10))] else []) ++
  (if df.hasCol "rotatable_bond_count" then
    [lipinskiCheck (df.colGet "rotatable_bond_count") (fun q => decide (q ≤ 10))] else []) ++
  (if df.hasCol "polar_area" then
    [lipinskiCheck (df.colGet "polar_area") (fun q => decide (q ≤ 140))] else [])

/-- `compute_lipinski_ratio` (source lines 108-129); the trailing
`fillna(0.5)` is a no-op since every evaluated check is `0` or `1`. -/
def compute_lipinski_ratio (df : DF) : List ℚ :=
  let checks := lipinskiChecks df
  if checks.isEmpty then List.replicate df.nrows (1/2)
  else (List.range df.nrows).map (fun i =>
    ((checks.map (fun ch => ch.getD i 0)).sum) / (checks.length : ℚ))

def cAdd : Cell → Cell → Cell
  | .num a, .num b => .num (a + b)
  | _, _ => .na

def cSMul (a : ℚ) : Cell → Cell
  | .num b => .num (a * b)
  | _ => .na

def clip01 (c : Cell) : Cell := clipCellQ 0 1 c

/-- The engineered-feature block (source lines 342-363). -/
def engineerStage (df : DF) : DF :=
  let lr := compute_lipinski_ratio df
  let binding_norm := minmax (df.colGet "binding_score")
  let stability_norm := minmax (df.colGet "stability")
  let solubility_norm := minmax (df.colGet "solubility")
  let toxicity_norm := minmax (df.colGet "toxicity")
  let complexity_norm := minmax (df.colGet "complexity")
  let heavy_atom_norm := minmax (if df.hasCol "heavy_atom_count" then df.colGet "heavy_atom_count"
    else List.replicate df.nrows (Cell.num 0))
  let rotatable_norm := minmax (df.colGet "rotatable_bond_count")
  let n := df.nrows
  let eff := (List.range n).map (fun i =>
    clip01 (cAdd (cSMul (6/10) (binding_norm.getD i Cell.na))
      (cAdd (cSMul (2/10) (stability_norm.getD i Cell.na))
        (cSMul (2/10) (solubility_norm.getD i Cell.na)))))
  let df1 := df.setCol "efficacy_index" eff
  let saf := (List.range n).map (fun i =>
    clip01 (cAdd (cSMul (7/10) (cAdd (Cell.num 1) (cSMul (-1) (toxicity_norm.getD i Cell.na))))
      (Cell.num ((3/10) * lr.getD i (1/2)))))
  let df2 := df1.setCol "safety_index" saf
  let mc := (List.range n).map (fun i =>
    clip01 (cAdd (cSMul (5/10) (complexity_norm.getD i Cell.na))
      (cAdd (cSMul (3/10) (heavy_atom_norm.getD i Cell.na))
        (cSMul (2/10) (rotatable_norm.getD i Cell.na)))))
  let df3 := df2.setCol "molecular_complexity" mc
  let cb := (df3.colGet "molecular_complexity").map (fun c =>
    clip01 (match c with
      | .num q => Cell.num (1 - qabs (q - 1/2) * 2)
      | _ => Cell.na))
  let ds := (List.range n).map (fun i =>
    clip01 (cAdd (cSMul (45/100) ((df3.colGet "efficacy_index").getD i Cell.na))
      (cAdd (cSMul (35/100) ((df3.colGet "safety_index").getD i Cell.na))
        (cSMul (20/100) (cb.getD i Cell.na)))))
  df3.setCol "drug_score" ds

/-- Stable ascending insertion into a sorted index list (ties keep the
inserted, originally earlier, index first). -/
def ordInsert (key : Nat → ℚ) (a : Nat) : List Nat → List Nat
  | [] => [a]
  | b :: t => if key a ≤ key b then a :: b :: t else b :: ordInsert key a t

/-- Stable ascending argsort. -/
def argsortAsc (key : Nat → ℚ) : List Nat → List Nat
  | [] => []
  | a :: t => ordInsert key a (argsortAsc key t)

/-- pandas `nargsort(key, kind="quicksort", ascending=False,
na_position="last")` as used by `sort_values` (source line 365): the
non-missing values and their positions are REVERSED, the ascending argsort
of that reversed view is computed, the result is reversed back, and the
missing positions are appended in original order.  The two reversals cancel
on ties, so a descending sort with a stable kernel keeps tied rows in
original order.  The ascending argsort is modelled as the stable insertion
sort, which is exactly NumPy's introsort behaviour on at most 16 elements;
for larger inputs NumPy's tie order is implementation-defined, and only tie
order can differ. -/
def rankIndexer (scores : List (Option ℚ)) : List Nat :=
  let idx := List.range scores.length
  let nonNa := idx.filter (fun i => (scores.getD i none).isSome)
  let naIdx := idx.filter (fun i => !(scores.getD i none).isSome)
  (argsortAsc (fun i => (scores.getD i none).getD 0) nonNa.reverse).reverse ++ naIdx

/-- `sort_values("drug_score", ascending=False).reset_index(drop=True)` plus
`priority_rank = np.arange(1, len+1)` (source lines 365-366). -/
def sortStage (df : DF) : DF :=
  let scores := (df.colGet "drug_score").map cellQ?
  let sorted := df.takeRowsReset (rankIndexer scores)
  sorted.setCol "priority_rank" ((List.range sorted.nrows).map (fun (k : Nat) => Cell.num ((k : ℚ) + 1)))

def finalCols : List String :=
  ["candidate_id", "source_dataset", "name", "smiles", "molecular_weight", "polar_area",
   "xlogp", "h_bond_donor_count", "h_bond_acceptor_count", "rotatable_bond_count",
   "binding_score", "toxicity", "stability", "solubility", "efficacy_index", "safety_index",
   "molecular_complexity", "drug_score", "priority_rank"]

def textCols : List String := ["candidate_id", "source_dataset", "name", "smiles"]

/-- NumPy's round-half-to-even on an exact rational. -/
def roundHalfEven (x : ℚ) : ℤ :=
  if x - x.floor < 1/2 then x.floor
  else if 1/2 < x - x.floor then x.floor + 1
  else if x.floor % 2 = 0 then x.floor else x.floor + 1

/-- `Series.round(6)`. -/
def round6 (x : ℚ) : ℚ := (roundHalfEven (x * 1000000) : ℚ) / 1000000

/-- `astype(int)`: truncation toward zero. -/
def pyTruncInt (x : ℚ) : ℤ := if 0 ≤ x then x.floor else -(-x).floor

/-- `pd.to_numeric(·, errors="coerce").fillna(0.0).round(6)` on one cell. -/
def floatCoerceCell (c : Cell) : Cell :=
  Cell.num (round6 ((cellQ? (toNumericCell c)).getD 0))

/-- `pd.to_numeric(·, errors="coerce").fillna(0).astype(int)` on one cell. -/
def intCoerceCell (c : Cell) : Cell :=
  Cell.num ((pyTruncInt ((cellQ? (toNumericCell c)).getD 0) : ℚ))

/-- The final projection and type enforcement (source lines 369-401). -/
def finalStage (df : DF) : DF :=
  let df1 := finalCols.foldl (fun d c =>
    if d.hasCol c then d
    else if textCols.contains c then d.setScalar c (.str "unknown")
    else d.setScalar c .na) df
  let proj := df1.project finalCols
  let floats := finalCols.filter (fun c => !(textCols.contains c) && c != "priority_rank")
  let proj2 := floats.foldl (fun d c => d.setCol c ((d.colGet c).map floatCoerceCell)) proj
  proj2.setCol "priority_rank" ((proj2.colGet "priority_rank").map intCoerceCell)

/-- The combined table just before the solubility override: concat,
normalize, descriptor estimation, numeric coercion, text fill, imputation
(source lines 234-331). -/
def preOverride (hasRd : Bool) (oracle : String → Option ℚ) (dfs : List DF) : DF :=
  imputeStage (textStage (numericCoerceStage (xlogpStage hasRd oracle
    (normalize_columns (concatDF dfs)))))

/-- The combined table after the solubility override (source line 340). -/
def combinedMid (hasRd : Bool) (oracle : String → Option ℚ) (dfs : List DF) : DF :=
  solOverrideStage (preOverride hasRd oracle dfs)

/-- `harmonize_and_engineer` (source lines 233-402). -/
def harmonize_and_engineer (hasRd : Bool) (oracle : String → Option ℚ) (dfs : List DF) : DF :=
  finalStage (sortStage (engineerStage (combinedMid hasRd oracle dfs)))

/-- The data path of `main` (source lines 491-507): adapt the three raw
tables, then harmonize; reading/writing files and report generation are
outside the embedded core.  The adapter calls are not guarded by any
`try`, so an adapter error propagates. -/
def runPipeline (hasRd : Bool) (oracle : String → Option ℚ)
    (pubchem delaney quantum : DF) : Except String DF :=
  match prepare_pubchem pubchem with
  | .error e => .error e
  | .ok p => .ok (harmonize_and_engineer hasRd oracle
      [p, prepare_delaney delaney, prepare_quantum quantum])

/-- `pd.DataFrame()`: the table substituted for a missing or unreadable input. -/
def emptyDF : DF := { index := [], cols := [] }

/-! ### Basic table lemmas -/

theorem index_setCol (df : DF) (c : String) (v : List Cell) :
    (df.setCol c v).index = df.index := rfl

theorem nrows_setCol (df : DF) (c : String) (v : List Cell) :
    (df.setCol c v).nrows = df.nrows := rfl

theorem find?_setColList_self (l : List (String × List Cell)) (c : String) (v : List Cell) :
    (setColList l c v).find? (fun p => p.1 == c) = some (c, v) := by
  induction l with
  | nil => simp [setColList, List.find?_cons]
  | cons p t ih =>
      by_cases h : p.1 = c
      · rw [setColList, if_pos (by simp [h])]
        simp [List.find?_cons]
      · rw [setColList, if_neg (by simp [h])]
        simp only [List.find?_cons]
        rw [show (p.1 == c) = false from by simp [h]]
        exact ih

theorem find?_setColList_ne (l : List (String × List Cell)) (c c' : String) (v : List Cell)
    (h : c ≠ c') : (setColList l c v).find? (fun p => p.1 == c') = l.find? (fun p => p.1 == c') := by
  induction l with
  | nil => simp [setColList, List.find?_cons, h]
  | cons p t ih =>
      by_cases hp : p.1 = c
      · rw [setColList, if_pos (by simp [hp])]
        simp only [List.find?_cons]
        rw [show (c == c') = false from by simp [h], show (p.1 == c') = false from by simp [hp, h]]
      · rw [setColList, if_neg (by simp [hp])]
        simp only [List.find?_cons]
        by_cases hp' : p.1 = c'
        · rw [show (p.1 == c') = true from by simp [hp']]
        · rw [show (p.1 == c') = false from by simp [hp']]
          exact ih

theorem getCol?_setCol_self (df : DF) (c : String) (v : List Cell) :
    (df.setCol c v).getCol? c = some v := by
  unfold DF.getCol? DF.setCol
  rw [find?_setColList_self]
  rfl

theorem getCol?_setCol_ne (df : DF) (c c' : String) (v : List Cell) (h : c ≠ c') :
    (df.setCol c v).getCol? c' = df.getCol? c' := by
  unfold DF.getCol? DF.setCol
  rw [find?_setColList_ne _ _ _ _ h]

theorem colGet_setCol_self (df : DF) (c : String) (v : List Cell) :
    (df.setCol c v).colGet c = v := by
  unfold DF.colGet
  rw [getCol?_setCol_self]
  rfl

theorem colGet_setCol_ne (df : DF) (c c' : String) (v : List Cell) (h : c ≠ c') :
    (df.setCol c v).colGet c' = df.colGet c' := by
  unfold DF.colGet
  rw [getCol?_setCol_ne _ _ _ _ h]
  rfl

theorem hasCol_setCol_self (df : DF) (c : String) (v : List Cell) :
    (df.setCol c v).hasCol c = true := by
  unfold DF.hasCol
  rw [getCol?_setCol_self]
  rfl

theorem hasCol_setCol_ne (df : DF) (c c' : String) (v : List Cell) (h : c ≠ c') :
    (df.setCol c v).hasCol c' = df.hasCol c' := by
  unfold DF.hasCol
  rw [getCol?_setCol_ne _ _ _ _ h]

theorem colGet_of_getCol? {df : DF} {c : String} {v : List Cell}
    (h : df.getCol? c = some v) : df.colGet c = v := by
  unfold DF.colGet
  rw [h]
  rfl

theorem colGet_of_getCol?_none {df : DF} {c : String} (h : df.getCol? c = none) :
    df.colGet c = List.replicate df.nrows Cell.na := by
  unfold DF.colGet
  rw [h]
  rfl

theorem selectPos_length (is : List Nat) (pad : α) (l : List α) :
    (selectPos is pad l).length = is.length := by
  simp [selectPos]

theorem selectPos_getElem? {is : List Nat} {pad : α} {l : List α} {p i : Nat}
    (h : is[p]? = some i) : (selectPos is pad l)[p]? = some (l.getD i pad) := by
  unfold selectPos
  rw [List.getElem?_map, h]
  rfl

theorem mem_selectPos {is : List Nat} {pad : α} {l : List α} {x : α}
    (h : x ∈ selectPos is pad l) : x ∈ l ∨ x = pad := by
  unfold selectPos at h
  rw [List.mem_map] at h
  obtain ⟨i, _, hi⟩ := h
  subst hi
  rcases Nat.lt_or_ge i l.length with hlt | hge
  · left
    rw [List.getD_eq_getElem?_getD, List.getElem?_eq_getElem hlt]
    exact List.getElem_mem hlt
  · right
    rw [List.getD_eq_getElem?_getD, List.getElem?_eq_none hge]
    rfl

theorem getD_replicate_self (n : Nat) (a : α) (i : Nat) :
    (List.replicate n a).getD i a = a := by
  rw [List.getD_eq_getElem?_getD]
  rcases Nat.lt_or_ge i n with h | h
  · rw [List.getElem?_replicate, if_pos h]
    rfl
  · rw [List.getElem?_eq_none (by simp [h])]
    rfl

theorem selectPos_replicate (is : List Nat) (n : Nat) (a : α) :
    selectPos is a (List.replicate n a) = List.replicate is.length a := by
  unfold selectPos
  rw [List.eq_replicate_iff]
  refine ⟨by simp, ?_⟩
  intro b hb
  rw [List.mem_map] at hb
  obtain ⟨i, _, hi⟩ := hb
  rw [← hi, getD_replicate_self]

theorem colGet_takeRowsReset (df : DF) (is : List Nat) (c : String) :
    (df.takeRowsReset is).colGet c = selectPos is Cell.na (df.colGet c) := by
  unfold DF.takeRowsReset DF.colGet DF.getCol?
  rw [List.find?_map,
    show ((fun p => p.1 == c) ∘ (fun (p : String × List Cell) => (p.1, selectPos is Cell.na p.2)))
      = (fun p => p.1 == c) from rfl]
  cases df.cols.find? (fun p => p.1 == c) with
  | none =>
      show List.replicate (List.range is.length).length Cell.na
        = selectPos is Cell.na (List.replicate df.nrows Cell.na)
      rw [selectPos_replicate, List.length_range]
  | some p =>
      rfl

theorem index_takeRowsReset (df : DF) (is : List Nat) :
    (df.takeRowsReset is).index = List.range is.length := rfl

/-- Master lemma for the column-update folds in the pipeline: if one step
touches only the named column, a fold over distinct names rewrites each
column once. -/
theorem foldl_colstep
    (step : DF → String → DF) (G : String → Option (List Cell) → Nat → Option (List Cell))
    (hne : ∀ d n c, c ≠ n → (step d n).getCol? c = d.getCol? c)
    (hidx : ∀ d n, (step d n).index = d.index)
    (hself : ∀ d n, (step d n).getCol? n = G n (d.getCol? n) d.nrows) :
    ∀ (names : List String), names.Nodup → ∀ (df : DF) (c : String),
      (names.foldl step df).index = df.index ∧
      (names.foldl step df).getCol? c
        = if c ∈ names then G c (df.getCol? c) df.nrows else df.getCol? c := by
  intro names
  induction names with
  | nil =>
      intro _ df c
      simp
  | cons n rest ih =>
      intro hnd df c
      rw [List.nodup_cons] at hnd
      obtain ⟨hn, hrest⟩ := hnd
      rw [List.foldl_cons]
      obtain ⟨ih1, ih2⟩ := ih hrest (step df n) c
      have hnr : (step df n).nrows = df.nrows := by
        unfold DF.nrows
        rw [hidx]
      refine ⟨by rw [ih1, hidx], ?_⟩
      rw [ih2]
      by_cases hc : c = n
      · subst hc
        rw [if_neg hn, if_pos (by simp), hself]
      · by_cases hcr : c ∈ rest
        · rw [if_pos hcr, if_pos (by simp [hcr]), hne _ _ _ hc, hnr]
        · rw [if_neg hcr, if_neg (by simp [hc, hcr]), hne _ _ _ hc]

/-! ## Claim C1: the all-empty-inputs scenario -/

/-- C1 (code bug): with all three input tables empty (the substitute for
missing/unreadable files), the pipeline does not produce an empty ranked
table; `prepare_pubchem` raises `KeyError: compound_cid` at line 167 and
`main` has no handler around the adapter calls, so the run aborts. -/
theorem empty_inputs_raise_keyerror (hasRd : Bool) (oracle : String → Option ℚ) :
    runPipeline hasRd oracle emptyDF emptyDF emptyDF
      = Except.error "KeyError: compound_cid" := by
  have h : prepare_pubchem emptyDF = Except.error "KeyError: compound_cid" := by
    with_unfolding_all rfl
  unfold runPipeline
  rw [h]

/-! ## Claim C3: tie handling of the ranker (theorem `tie_rows_preserved`) -/

def cexDF3 : DF := { index := [0, 1], cols := [("candidate_id", [Cell.str "a", Cell.str "b"])] }

example :
    (harmonize_and_engineer false (fun _ => none) [cexDF3]).colGet "candidate_id"
        = [Cell.str "a", Cell.str "b"]
      ∧ (harmonize_and_engineer false (fun _ => none) [cexDF3]).colGet "drug_score"
        = [Cell.num (7/20), Cell.num (7/20)] := by
  constructor
  · with_unfolding_all decide
  · with_unfolding_all decide

/-! ## Claim C4: order of the solubility override and the imputation -/

/-- Modelled from the spec: spec §4.5 says the measured-solubility override
is "applied before generic imputation of `solubility`".  This composition
follows the spec's words (override first, imputation second); the
source-faithful order is `combinedMid` (imputation first, source lines
313-340). -/
def combinedMidSpecOrder (hasRd : Bool) (oracle : String → Option ℚ) (dfs : List DF) : DF :=
  imputeStage (solOverrideStage (textStage (numericCoerceStage (xlogpStage hasRd oracle
    (normalize_columns (concatDF dfs))))))

def cexDF4 : DF := { index := [0, 1, 2, 3, 4], cols :=
  [("source_dataset", [Cell.str "delaney_solubility", Cell.str "delaney_solubility",
     Cell.str "quantum_candidates", Cell.str "quantum_candidates", Cell.str "quantum_candidates"]),
   ("measured_log_solubility", [Cell.num 5, Cell.num 5, Cell.na, Cell.na, Cell.na]),
   ("solubility", [Cell.na, Cell.na, Cell.num (1/5), Cell.num (4/5), Cell.na])] }

/-- C4 (counterexample): on a table with two benchmark rows (measured
solubility present, generic solubility absent) and three simulated rows
(solubilities 0.2, 0.8 and missing), the pipeline's combined table imputes
the missing simulated solubility with 1/2, the median of the PRE-override
column; had the override run before imputation as the spec states, the
median would have been 1/10.  The medians therefore do not reflect the
overridden values. -/
theorem override_order_cex :
    (combinedMid false (fun _ => none) [cexDF4]).colGet "solubility"
        = [Cell.num 0, Cell.num 0, Cell.num (1/5), Cell.num (4/5), Cell.num (1/2)]
      ∧ (combinedMidSpecOrder false (fun _ => none) [cexDF4]).colGet "solubility"
        = [Cell.num 0, Cell.num 0, Cell.num (1/5), Cell.num (4/5), Cell.num (1/10)]
      ∧ (Cell.num (1/2) : Cell) ≠ Cell.num (1/10) := by
  refine ⟨?_, ?_, ?_⟩
  · with_unfolding_all decide
  · with_unfolding_all decide
  · with_unfolding_all decide

/-! ## Claim C5: the descriptor-estimator trigger condition -/

def cexDF5 : DF := { index := [0], cols :=
  [("xlogp", [Cell.num 0]), ("smiles", [Cell.str "unknown"]),
   ("molecular_weight", [Cell.num 380]), ("polar_area", [Cell.num 60])] }

/-- C5 (counterexample): a row whose `xlogp` is exactly zero but whose
`smiles` is the sentinel `"unknown"` is nevertheless overwritten by the
heuristic estimator (to 2.07): the per-row sentinel check lives only inside
the RDKit branch, and the row-selection mask tests `xlogp` alone. -/
theorem xlogp_overwrite_sentinel_cex :
    (xlogpStage false (fun _ => none) cexDF5).colGet "xlogp" = [Cell.num (207/100)]
      ∧ cexDF5.colGet "smiles" = [Cell.str "unknown"]
      ∧ sentinelSmiles "unknown" = true
      ∧ cexDF5.colGet "xlogp" = [Cell.num 0]
      ∧ (Cell.num (207/100) : Cell) ≠ Cell.num 0 := by
  refine ⟨?_, ?_, ?_, ?_, ?_⟩ <;> with_unfolding_all decide

/-! ## Claim C6: the heuristic estimator's treatment of missing inputs -/

def cexDF6 : DF := { index := [0], cols :=
  [("xlogp", [Cell.num 0]), ("smiles", [Cell.str "CCO"]),
   ("molecular_weight", [Cell.na]), ("polar_area", [Cell.num 10])] }

/-- C6 (counterexample): for a triggered row whose `molecular_weight` is
missing (`NaN`), the claim's formula with the 0.0 substitution would give
`clamp(2 + (0-350)/250 - (10-50)/200) = 0.8`, but the code's `NaN` is
truthy in `row.get(...) or 0.0`, so it propagates and the estimate is left
missing. -/
theorem heuristic_nan_cex :
    (xlogpStage false (fun _ => none) cexDF6).colGet "xlogp" = [Cell.na]
      ∧ cexDF6.colGet "molecular_weight" = [Cell.na]
      ∧ qmin 6 (qmax (-2) (2 + ((0 : ℚ) - 350) / 250 - ((10 : ℚ) - 50) / 200)) = 4/5
      ∧ (Cell.na : Cell) ≠ Cell.num (4/5) := by
  refine ⟨?_, ?_, ?_, ?_⟩ <;> with_unfolding_all decide

/-! ## Claim C8: candidate_id uniqueness and format -/

def cexDFP : DF := { index := [0, 1], cols :=
  [("compound_cid", [Cell.num 5, Cell.num 5]), ("name", [Cell.str "x", Cell.str "y"])] }

def cexDFQ : DF := { index := [0], cols := [("molecule_id", [Cell.str "m1"])] }

def cexPubOut : DF := (prepare_pubchem cexDFP).toOption.getD emptyDF

/-- C8 (counterexample): merging the adapted tables of a pubchem input with
a repeated `compound_cid` and a quantum input with molecule id `"m1"` gives
candidate ids `["pubchem_5", "pubchem_5", "m1"]`: they are not pairwise
distinct, and `"m1"` (quantum ids carry no source tag) does not have the
`{source_prefix}_{local_id}` shape — it contains no underscore at all. -/
theorem candidate_id_cex :
    (concatDF [cexPubOut, prepare_delaney emptyDF, prepare_quantum cexDFQ]).colGet "candidate_id"
        = [Cell.str "pubchem_5", Cell.str "pubchem_5", Cell.str "m1"]
      ∧ ¬ ([Cell.str "pubchem_5", Cell.str "pubchem_5", Cell.str "m1"] : List Cell).Nodup
      ∧ String.contains "m1" '_' = false := by
  refine ⟨?_, ?_, ?_⟩ <;> with_unfolding_all decide

/-! ### Rounding and clipping facts -/

theorem ratFloor_eq (q : ℚ) : q.floor = ⌊q⌋ := rfl

theorem roundHalfEven_bounds (x : ℚ) :
    ⌊x⌋ ≤ roundHalfEven x ∧ roundHalfEven x ≤ ⌊x⌋ + 1 := by
  unfold roundHalfEven
  rw [ratFloor_eq]
  split_ifs <;> omega

theorem roundHalfEven_mono {x y : ℚ} (h : x ≤ y) : roundHalfEven x ≤ roundHalfEven y := by
  have hf : ⌊x⌋ ≤ ⌊y⌋ := Int.floor_le_floor h
  rcases lt_or_eq_of_le hf with hlt | heq
  · have hx := roundHalfEven_bounds x
    have hy := roundHalfEven_bounds y
    omega
  · unfold roundHalfEven
    rw [ratFloor_eq, ratFloor_eq, ← heq]
    have hfr : x - ⌊x⌋ ≤ y - ⌊x⌋ := by linarith
    split_ifs <;> first | omega | linarith

theorem round6_mono {x y : ℚ} (h : x ≤ y) : round6 x ≤ round6 y := by
  unfold round6
  have h1 : x * 1000000 ≤ y * 1000000 := by linarith
  have h2 := roundHalfEven_mono h1
  have h3 : (roundHalfEven (x * 1000000) : ℚ) ≤ (roundHalfEven (y * 1000000) : ℚ) := by
    exact_mod_cast h2
  linarith

theorem round6_zero : round6 0 = 0 := by
  unfold round6 roundHalfEven
  rw [show ((0 : ℚ) * 1000000) = 0 by ring, ratFloor_eq, Int.floor_zero]
  norm_num

theorem round6_one : round6 1 = 1 := by
  unfold round6 roundHalfEven
  rw [show ((1 : ℚ) * 1000000) = ((1000000 : ℤ) : ℚ) by norm_num, ratFloor_eq,
    Int.floor_intCast]
  norm_num

theorem round6_bounds {x : ℚ} (h0 : 0 ≤ x) (h1 : x ≤ 1) :
    0 ≤ round6 x ∧ round6 x ≤ 1 := by
  constructor
  · have := round6_mono h0
    rw [round6_zero] at this
    exact this
  · have := round6_mono h1
    rw [round6_one] at this
    exact this

/-- Whether a final-table cell is a number in `[0,1]`. -/
def cellIn01 : Cell → Bool
  | .num q => decide (0 ≤ q ∧ q ≤ 1)
  | _ => false

theorem cAdd_shape (a b : Cell) : cAdd a b = Cell.na ∨ ∃ q, cAdd a b = Cell.num q := by
  cases a <;> cases b <;> simp [cAdd]

theorem clip01_shape {c : Cell} (hc : c = Cell.na ∨ ∃ q, c = Cell.num q) :
    clip01 c = Cell.na ∨ ∃ q, clip01 c = Cell.num q ∧ 0 ≤ q ∧ q ≤ 1 := by
  rcases hc with hc | ⟨q, hc⟩
  · subst hc
    left
    rfl
  · subst hc
    right
    refine ⟨qmin 1 (qmax 0 q), rfl, ?_, ?_⟩
    · unfold qmin qmax
      split_ifs <;> linarith
    · unfold qmin qmax
      split_ifs <;> linarith

theorem cellIn01_floatCoerce_clip {c : Cell} (hc : c = Cell.na ∨ ∃ q, c = Cell.num q ∧ 0 ≤ q ∧ q ≤ 1) :
    cellIn01 (floatCoerceCell c) = true := by
  rcases hc with hc | ⟨q, hc, h0, h1⟩
  · subst hc
    show cellIn01 (Cell.num (round6 ((cellQ? (toNumericCell Cell.na)).getD 0))) = true
    show cellIn01 (Cell.num (round6 0)) = true
    rw [round6_zero]
    decide
  · subst hc
    show cellIn01 (Cell.num (round6 q)) = true
    obtain ⟨hb0, hb1⟩ := round6_bounds h0 h1
    unfold cellIn01
    exact decide_eq_true ⟨hb0, hb1⟩

/-! ### Stage plumbing lemmas -/

theorem engineerStage_index (df : DF) : (engineerStage df).index = df.index := rfl

set_option maxHeartbeats 1600000 in
theorem engineerStage_colGet_ne (df : DF) (c : String)
    (h1 : c ≠ "efficacy_index") (h2 : c ≠ "safety_index")
    (h3 : c ≠ "molecular_complexity") (h4 : c ≠ "drug_score") :
    (engineerStage df).colGet c = df.colGet c := by
  simp only [engineerStage]
  rw [colGet_setCol_ne _ _ _ _ (Ne.symm h4), colGet_setCol_ne _ _ _ _ (Ne.symm h3),
    colGet_setCol_ne _ _ _ _ (Ne.symm h2), colGet_setCol_ne _ _ _ _ (Ne.symm h1)]

set_option maxHeartbeats 1600000 in
theorem engineerStage_clip_image (df : DF) (c : String)
    (hc : c = "efficacy_index" ∨ c = "safety_index" ∨ c = "molecular_complexity"
      ∨ c = "drug_score") :
    ∃ f : Nat → Cell, (∀ i, f i = Cell.na ∨ ∃ q, f i = Cell.num q) ∧
      (engineerStage df).colGet c = (List.range df.nrows).map (fun i => clip01 (f i)) := by
  rcases hc with hc | hc | hc | hc <;> subst hc <;> simp only [engineerStage]
  · rw [colGet_setCol_ne _ _ _ _ (by decide), colGet_setCol_ne _ _ _ _ (by decide),
      colGet_setCol_ne _ _ _ _ (by decide), colGet_setCol_self]
    exact ⟨_, fun i => cAdd_shape _ _, rfl⟩
  · rw [colGet_setCol_ne _ _ _ _ (by decide), colGet_setCol_ne _ _ _ _ (by decide),
      colGet_setCol_self]
    exact ⟨_, fun i => cAdd_shape _ _, rfl⟩
  · rw [colGet_setCol_ne _ _ _ _ (by decide), colGet_setCol_self]
    exact ⟨_, fun i => cAdd_shape _ _, rfl⟩
  · rw [colGet_setCol_self]
    exact ⟨_, fun i => cAdd_shape _ _, rfl⟩

/-- The argsort indexer used by `sortStage` on a given engineered table. -/
def dfIndexer (df : DF) : List Nat :=
  rankIndexer ((df.colGet "drug_score").map cellQ?)

theorem sortStage_colGet_ne (df : DF) (c : String) (h : c ≠ "priority_rank") :
    (sortStage df).colGet c = selectPos (dfIndexer df) Cell.na (df.colGet c) := by
  unfold sortStage dfIndexer
  rw [colGet_setCol_ne _ _ _ _ (Ne.symm h), colGet_takeRowsReset]

theorem sortStage_priority (df : DF) :
    (sortStage df).colGet "priority_rank"
      = (List.range (dfIndexer df).length).map (fun (k : Nat) => Cell.num ((k : ℚ) + 1)) := by
  unfold sortStage dfIndexer
  rw [colGet_setCol_self]
  simp only [DF.takeRowsReset, DF.nrows, List.length_range]

theorem sortStage_index (df : DF) :
    (sortStage df).index = List.range (dfIndexer df).length := rfl

theorem getCol?_project_mem {df : DF} {names : List String} {c : String} (hc : c ∈ names) :
    (df.project names).getCol? c = some (df.colGet c) := by
  unfold DF.project DF.getCol?
  induction names with
  | nil => exact absurd hc (List.not_mem_nil c)
  | cons a t ih =>
      rw [List.map_cons, List.find?_cons]
      by_cases ha : a = c
      · subst ha
        rw [show (((a, df.colGet a)).1 == a) = true from by simp]
        rfl
      · rw [show (((a, df.colGet a)).1 == c) = false from by simp [ha]]
        have hct : c ∈ t := by
          rcases List.mem_cons.mp hc with h | h
          · exact absurd h.symm ha
          · exact h
        exact ih hct

theorem index_project (df : DF) (names : List String) : (df.project names).index = df.index := rfl

/-- The ensure-projection step of `finalStage` (source lines 390-394). -/
theorem finalStage_ensure_getCol? (df : DF) (c : String) :
    ((finalCols.foldl (fun d c => if d.hasCol c then d
        else if textCols.contains c then d.setScalar c (.str "unknown")
        else d.setScalar c .na) df).getCol? c
      = if c ∈ finalCols
        then some ((df.getCol? c).getD (List.replicate df.nrows
          (if textCols.contains c then Cell.str "unknown" else Cell.na)))
        else df.getCol? c)
    ∧ (finalCols.foldl (fun d c => if d.hasCol c then d
        else if textCols.contains c then d.setScalar c (.str "unknown")
        else d.setScalar c .na) df).index = df.index := by
  have master := foldl_colstep
    (fun d c => if d.hasCol c then d
      else if textCols.contains c then d.setScalar c (.str "unknown")
      else d.setScalar c .na)
    (fun n o k => some (o.getD (List.replicate k
      (if textCols.contains n then Cell.str "unknown" else Cell.na))))
    (by
      intro d n c' hc'
      beta_reduce
      by_cases h1 : d.hasCol n
      · rw [if_pos h1]
      · rw [if_neg h1]
        by_cases h2 : textCols.contains n
        · rw [if_pos h2]
          exact getCol?_setCol_ne _ _ _ _ (fun h => hc' h.symm)
        · rw [if_neg h2]
          exact getCol?_setCol_ne _ _ _ _ (fun h => hc' h.symm))
    (by
      intro d n
      beta_reduce
      by_cases h1 : d.hasCol n
      · rw [if_pos h1]
      · rw [if_neg h1]
        by_cases h2 : textCols.contains n
        · rw [if_pos h2]
          rfl
        · rw [if_neg h2]
          rfl)
    (by
      intro d n
      beta_reduce
      by_cases h1 : d.hasCol n
      · rw [if_pos h1]
        unfold DF.hasCol at h1
        rcases ho : d.getCol? n with _ | v
        · rw [ho] at h1
          exact absurd h1 (by simp)
        · rfl
      · rw [if_neg h1]
        unfold DF.hasCol at h1
        rcases ho : d.getCol? n with _ | v
        · by_cases h2 : textCols.contains n
          · rw [if_pos h2]
            unfold DF.setScalar
            rw [getCol?_setCol_self, if_pos h2]
            rfl
          · rw [if_neg h2]
            unfold DF.setScalar
            rw [getCol?_setCol_self, if_neg h2]
            rfl
        · rw [ho] at h1
          simp at h1)
    finalCols (by decide) df c
  exact ⟨master.2, master.1⟩

/-- The float-coercion fold of `finalStage` (source lines 397-399). -/
theorem finalStage_floats_getCol? (df : DF) (c : String) :
    ((finalCols.filter (fun c => !(textCols.contains c) && c != "priority_rank")).foldl
        (fun d c => d.setCol c ((d.colGet c).map floatCoerceCell)) df).getCol? c
      = (if c ∈ finalCols.filter (fun c => !(textCols.contains c) && c != "priority_rank")
        then some (((df.getCol? c).getD (List.replicate df.nrows Cell.na)).map floatCoerceCell)
        else df.getCol? c)
    ∧ ((finalCols.filter (fun c => !(textCols.contains c) && c != "priority_rank")).foldl
        (fun d c => d.setCol c ((d.colGet c).map floatCoerceCell)) df).index = df.index := by
  have master := foldl_colstep
    (fun d c => d.setCol c ((d.colGet c).map floatCoerceCell))
    (fun n o k => some ((o.getD (List.replicate k Cell.na)).map floatCoerceCell))
    (fun d n c' hc' => getCol?_setCol_ne _ _ _ _ (fun h => hc' h.symm))
    (fun d n => rfl)
    (fun d n => by beta_reduce; rw [getCol?_setCol_self]; rfl)
    (finalCols.filter (fun c => !(textCols.contains c) && c != "priority_rank")) (by decide) df c
  exact ⟨master.2, master.1⟩

theorem finalStage_float_col (df : DF) (c : String) (hin : c ∈ finalCols)
    (hflt : c ∈ finalCols.filter (fun c => !(textCols.contains c) && c != "priority_rank")) :
    (finalStage df).colGet c = (df.colGet c).map floatCoerceCell := by
  unfold finalStage
  have htext : textCols.contains c = false := by
    have := (List.mem_filter.mp hflt).2
    rcases Bool.and_eq_true _ _ |>.mp this with ⟨h1, _⟩
    rcases hb : textCols.contains c
    · rfl
    · rw [hb] at h1
      exact absurd h1 (by decide)
  obtain ⟨h1col, h1idx⟩ := finalStage_ensure_getCol? df c
  rw [if_pos hin, htext] at h1col
  have h1 : (finalCols.foldl (fun d c => if d.hasCol c then d
      else if textCols.contains c then d.setScalar c (.str "unknown")
      else d.setScalar c .na) df).getCol? c = some (df.colGet c) := by
    rw [h1col]
    rfl
  have hproj : ((finalCols.foldl (fun d c => if d.hasCol c then d
      else if textCols.contains c then d.setScalar c (.str "unknown")
      else d.setScalar c .na) df).project finalCols).getCol? c = some (df.colGet c) := by
    rw [getCol?_project_mem hin, colGet_of_getCol? h1]
  obtain ⟨h2col, h2idx⟩ := finalStage_floats_getCol?
    ((finalCols.foldl (fun d c => if d.hasCol c then d
      else if textCols.contains c then d.setScalar c (.str "unknown")
      else d.setScalar c .na) df).project finalCols) c
  rw [if_pos hflt, hproj] at h2col
  rw [colGet_setCol_ne _ _ _ _ ?hne]
  case hne =>
    intro h
    have := (List.mem_filter.mp hflt).2
    rw [← h] at this
    exact absurd this (by decide)
  exact colGet_of_getCol? (by rw [h2col]; rfl)

theorem finalStage_priority_col (df : DF) :
    (finalStage df).colGet "priority_rank" = (df.colGet "priority_rank").map intCoerceCell := by
  unfold finalStage
  obtain ⟨h1col, h1idx⟩ := finalStage_ensure_getCol? df "priority_rank"
  rw [if_pos (by decide), show (textCols.contains "priority_rank") = false from by decide] at h1col
  have h1 : (finalCols.foldl (fun d c => if d.hasCol c then d
      else if textCols.contains c then d.setScalar c (.str "unknown")
      else d.setScalar c .na) df).getCol? "priority_rank" = some (df.colGet "priority_rank") := by
    rw [h1col]
    rfl
  have hproj : ((finalCols.foldl (fun d c => if d.hasCol c then d
      else if textCols.contains c then d.setScalar c (.str "unknown")
      else d.setScalar c .na) df).project finalCols).getCol? "priority_rank"
      = some (df.colGet "priority_rank") := by
    rw [getCol?_project_mem (by decide), colGet_of_getCol? h1]
  obtain ⟨h2col, h2idx⟩ := finalStage_floats_getCol?
    ((finalCols.foldl (fun d c => if d.hasCol c then d
      else if textCols.contains c then d.setScalar c (.str "unknown")
      else d.setScalar c .na) df).project finalCols) "priority_rank"
  rw [if_neg (by decide), hproj] at h2col
  rw [colGet_setCol_self]
  rw [colGet_of_getCol? h2col]

theorem bounded_final_col (df : DF) (c : String) (hin : c ∈ finalCols)
    (hflt : c ∈ finalCols.filter (fun c => !(textCols.contains c) && c != "priority_rank"))
    (hprio : c ≠ "priority_rank")
    (hc4 : c = "efficacy_index" ∨ c = "safety_index" ∨ c = "molecular_complexity"
      ∨ c = "drug_score") :
    ((finalStage (sortStage (engineerStage df))).colGet c).all cellIn01 = true := by
  rw [finalStage_float_col _ _ hin hflt, sortStage_colGet_ne _ _ hprio]
  obtain ⟨f, hf, hcol⟩ := engineerStage_clip_image df c hc4
  rw [hcol]
  rw [List.all_eq_true]
  intro x hx
  rw [List.mem_map] at hx
  obtain ⟨y, hy, hxy⟩ := hx
  subst hxy
  rcases mem_selectPos hy with hy' | hy'
  · rw [List.mem_map] at hy'
    obtain ⟨i, _, hyi⟩ := hy'
    subst hyi
    exact cellIn01_floatCoerce_clip (clip01_shape (hf i))
  · subst hy'
    exact cellIn01_floatCoerce_clip (Or.inl rfl)

/-- C7: in the final candidate table every row's `efficacy_index`,
`safety_index`, `molecular_complexity` and `drug_score` is a number in
`[0,1]`, for arbitrary input tables: each index is clipped to `[0,1]` when
engineered, and the final coercion maps missing values to `0.0` and rounds
within the interval. -/
theorem engineered_indices_bounded (hasRd : Bool) (oracle : String → Option ℚ)
    (dfs : List DF) :
    ((harmonize_and_engineer hasRd oracle dfs).colGet "efficacy_index").all cellIn01 = true
    ∧ ((harmonize_and_engineer hasRd oracle dfs).colGet "safety_index").all cellIn01 = true
    ∧ ((harmonize_and_engineer hasRd oracle dfs).colGet "molecular_complexity").all cellIn01 = true
    ∧ ((harmonize_and_engineer hasRd oracle dfs).colGet "drug_score").all cellIn01 = true := by
  unfold harmonize_and_engineer
  exact ⟨bounded_final_col _ _ (by decide) (by decide) (by decide) (Or.inl rfl),
    bounded_final_col _ _ (by decide) (by decide) (by decide) (Or.inr (Or.inl rfl)),
    bounded_final_col _ _ (by decide) (by decide) (by decide) (Or.inr (Or.inr (Or.inl rfl))),
    bounded_final_col _ _ (by decide) (by decide) (by decide) (Or.inr (Or.inr (Or.inr rfl)))⟩

/-! ### The stable argsort: sortedness and stability -/

/-- Lexicographic order on indices: key strictly below, or keys equal and
the original-order relation `r` (the stable insertion argsort keeps `r` on
ties). -/
def lexR (k : Nat → ℚ) (r : Nat → Nat → Prop) (i j : Nat) : Prop :=
  k i < k j ∨ (k i = k j ∧ r i j)

theorem mem_ordInsert {k : Nat → ℚ} {a x : Nat} {l : List Nat} :
    x ∈ ordInsert k a l ↔ x = a ∨ x ∈ l := by
  induction l with
  | nil => simp [ordInsert]
  | cons b t ih =>
      unfold ordInsert
      split_ifs with hab
      · simp [List.mem_cons]
      · simp only [List.mem_cons, ih]
        tauto

theorem ordInsert_lex {k : Nat → ℚ} {r : Nat → Nat → Prop} {a : Nat} {l : List Nat}
    (hl : l.Pairwise (lexR k r)) (ha : ∀ b ∈ l, r a b) :
    (ordInsert k a l).Pairwise (lexR k r) := by
  induction l with
  | nil => simp [ordInsert, lexR]
  | cons b t ih =>
      rw [List.pairwise_cons] at hl
      obtain ⟨hb, ht⟩ := hl
      unfold ordInsert
      split_ifs with hab
      · rw [List.pairwise_cons]
        constructor
        · intro x hx
          rcases List.mem_cons.mp hx with rfl | hx
          · rcases lt_or_eq_of_le hab with h | h
            · exact Or.inl h
            · exact Or.inr ⟨h, ha x (by simp)⟩
          · have hbx : k b ≤ k x := by
              rcases hb x hx with h | h
              · exact le_of_lt h
              · exact le_of_eq h.1
            rcases lt_or_eq_of_le (le_trans hab hbx) with h | h
            · exact Or.inl h
            · exact Or.inr ⟨h, ha x (List.mem_cons_of_mem b hx)⟩
        · exact List.Pairwise.cons hb ht
      · rw [List.pairwise_cons]
        constructor
        · intro x hx
          rcases mem_ordInsert.mp hx with rfl | hx
          · exact Or.inl (lt_of_not_le hab)
          · exact hb x hx
        · exact ih ht (fun x hx => ha x (List.mem_cons_of_mem b hx))

theorem mem_argsortAsc {k : Nat → ℚ} {l : List Nat} {x : Nat} :
    x ∈ argsortAsc k l ↔ x ∈ l := by
  induction l with
  | nil => simp [argsortAsc]
  | cons a t ih =>
      unfold argsortAsc
      rw [mem_ordInsert, ih, List.mem_cons]

theorem argsortAsc_lex {k : Nat → ℚ} {r : Nat → Nat → Prop} {l : List Nat}
    (hl : l.Pairwise r) : (argsortAsc k l).Pairwise (lexR k r) := by
  induction l with
  | nil => simp [argsortAsc]
  | cons a t ih =>
      rw [List.pairwise_cons] at hl
      unfold argsortAsc
      refine ordInsert_lex (ih hl.2) ?_
      intro b hb
      exact hl.1 b (mem_argsortAsc.mp hb)

/-- Monotone non-increasing check on adjacent numeric cells. -/
def cellsNonIncreasing : List Cell → Bool
  | [] => true
  | [_] => true
  | a :: b :: t =>
    (match a, b with
     | Cell.num x, Cell.num y => decide (y ≤ x)
     | _, _ => false) && cellsNonIncreasing (b :: t)

theorem cellsNonIncreasing_map_num {f : Nat → ℚ} {l : List Nat}
    (h : l.Pairwise (fun i j => f j ≤ f i)) :
    cellsNonIncreasing (l.map (fun i => Cell.num (f i))) = true := by
  induction l with
  | nil => rfl
  | cons a t ih =>
      rw [List.pairwise_cons] at h
      cases t with
      | nil => rfl
      | cons b t' =>
          show (decide (f b ≤ f a) && cellsNonIncreasing ((b :: t').map (fun i => Cell.num (f i)))) = true
          rw [Bool.and_eq_true, decide_eq_true_eq]
          exact ⟨h.1 b (by simp), ih h.2⟩

theorem rankIndexer_mem_lt {scores : List (Option ℚ)} {i : Nat}
    (h : i ∈ rankIndexer scores) : i < scores.length := by
  unfold rankIndexer at h
  rw [List.mem_append] at h
  rcases h with h | h
  · rw [List.mem_reverse, mem_argsortAsc, List.mem_reverse] at h
    exact List.mem_range.mp (List.mem_of_mem_filter h)
  · exact List.mem_range.mp (List.mem_of_mem_filter h)

theorem rankIndexer_pairwise (scores : List (Option ℚ))
    (hbound : ∀ i q, scores.getD i none = some q → 0 ≤ q) :
    (rankIndexer scores).Pairwise
      (fun i j => (scores.getD j none).getD 0 ≤ (scores.getD i none).getD 0) := by
  unfold rankIndexer
  rw [List.pairwise_append]
  refine ⟨?_, ?_, ?_⟩
  · rw [List.pairwise_reverse]
    have hlex := argsortAsc_lex (k := fun i => (scores.getD i none).getD 0)
      (l := ((List.range scores.length).filter (fun i => (scores.getD i none).isSome)).reverse)
      (List.pairwise_reverse.mpr ((List.pairwise_lt_range scores.length).filter _))
    refine hlex.imp ?_
    intro i j hij
    show (scores.getD i none).getD 0 ≤ (scores.getD j none).getD 0
    rcases hij with h | h
    · exact le_of_lt h
    · exact le_of_eq h.1
  · refine List.pairwise_of_forall_mem_list ?_
    intro i hi j hj
    have hni : (scores.getD j none).isSome = false := by
      have := List.of_mem_filter hj
      rcases hb : (scores.getD j none).isSome
      · rfl
      · rw [hb] at this
        exact absurd this (by decide)
    rcases ho : scores.getD j none with _ | q
    · rcases ho' : scores.getD i none with _ | q'
      · simp
      · have := List.of_mem_filter hi
        rw [ho'] at this
        simp at this
    · rw [ho] at hni
      simp at hni
  · intro i hi j hj
    rw [List.mem_reverse, mem_argsortAsc, List.mem_reverse] at hi
    have hsi := List.of_mem_filter hi
    have hnj : ¬ (scores.getD j none).isSome = true := by
      have := List.of_mem_filter hj
      intro hb
      rw [hb] at this
      exact absurd this (by decide)
    rcases ho : scores.getD j none with _ | q
    · rcases ho' : scores.getD i none with _ | q'
      · exact le_refl _
      · show (none : Option ℚ).getD 0 ≤ (some q').getD 0
        exact hbound i q' ho'
    · exfalso
      apply hnj
      rw [ho]
      rfl

theorem finalStage_index (df : DF) : (finalStage df).index = df.index := by
  unfold finalStage
  obtain ⟨-, h1⟩ := finalStage_ensure_getCol? df "x"
  obtain ⟨-, h2⟩ := finalStage_floats_getCol?
    ((finalCols.foldl (fun d c => if d.hasCol c then d
      else if textCols.contains c then d.setScalar c (.str "unknown")
      else d.setScalar c .na) df).project finalCols) "x"
  rw [index_setCol, h2, index_project, h1]

theorem intCoerce_rank (k : Nat) :
    intCoerceCell (Cell.num ((k : ℚ) + 1)) = Cell.num ((k : ℚ) + 1) := by
  show Cell.num ((pyTruncInt ((k : ℚ) + 1) : ℤ) : ℚ) = Cell.num ((k : ℚ) + 1)
  unfold pyTruncInt
  rw [if_pos (by positivity), ratFloor_eq,
    show ((k : ℚ) + 1) = (((k : ℤ) + 1 : ℤ) : ℚ) from by push_cast; ring, Int.floor_intCast]

theorem clip_image_elem {g : Nat → Cell} (hg : ∀ i, g i = Cell.na ∨ ∃ q, g i = Cell.num q)
    {v : List Cell} {n : Nat} (hv : v = (List.range n).map (fun i => clip01 (g i)))
    {i : Nat} (hi : i < v.length) :
    v.getD i Cell.na = Cell.na ∨ ∃ q, v.getD i Cell.na = Cell.num q ∧ 0 ≤ q ∧ q ≤ 1 := by
  subst hv
  have hi' : i < n := by
    rw [List.length_map, List.length_range] at hi
    exact hi
  rw [List.getD_eq_getElem?_getD, List.getElem?_map, List.getElem?_range hi']
  exact clip01_shape (hg i)

theorem scores_getD_eq {v : List Cell} {i : Nat} (hi : i < v.length) :
    (v.map cellQ?).getD i none = cellQ? (v.getD i Cell.na) := by
  rw [List.getD_eq_getElem?_getD, List.getElem?_map, List.getElem?_eq_getElem hi,
    List.getD_eq_getElem?_getD, List.getElem?_eq_getElem hi]
  rfl

/-- C2: in the final candidate table, `priority_rank` read in row order is
exactly `1, 2, ..., N` (hence a permutation of `1..N`), and the
`drug_score` column read in that same order is non-increasing: the ranker
sorts by `drug_score` descending (missing scores sorted last, then filled
with `0.0`, which every clipped score dominates) and assigns
`np.arange(1, N+1)`. -/
theorem ranking_law (hasRd : Bool) (oracle : String → Option ℚ) (dfs : List DF) :
    (harmonize_and_engineer hasRd oracle dfs).colGet "priority_rank"
      = (List.range (harmonize_and_engineer hasRd oracle dfs).nrows).map
          (fun (k : Nat) => Cell.num ((k : ℚ) + 1))
    ∧ cellsNonIncreasing ((harmonize_and_engineer hasRd oracle dfs).colGet "drug_score") = true := by
  unfold harmonize_and_engineer
  set E := engineerStage (combinedMid hasRd oracle dfs) with hE
  obtain ⟨g, hg, hcol⟩ := engineerStage_clip_image (combinedMid hasRd oracle dfs) "drug_score"
    (Or.inr (Or.inr (Or.inr rfl)))
  rw [← hE] at hcol
  set v := E.colGet "drug_score" with hv
  set scores := v.map cellQ? with hscores
  have hbound : ∀ i q, scores.getD i none = some q → 0 ≤ q := by
    intro i q h
    rcases Nat.lt_or_ge i v.length with hi | hi
    · rw [hscores, scores_getD_eq hi] at h
      rcases clip_image_elem hg hcol hi with hc | ⟨q', hc, h0, h1⟩
      · rw [hc] at h
        exact absurd h (by simp [cellQ?])
      · rw [hc] at h
        have hq : q' = q := by
          have hc2 : cellQ? (Cell.num q') = some q' := rfl
          rw [hc2] at h
          exact Option.some_inj.mp h
        rw [← hq]
        exact h0
    · rw [List.getD_eq_getElem?_getD, List.getElem?_eq_none (by
        rw [hscores, List.length_map]; exact hi)] at h
      exact absurd h (by simp)
  constructor
  · rw [finalStage_priority_col, sortStage_priority]
    have hnr : (finalStage (sortStage E)).nrows = (dfIndexer E).length := by
      unfold DF.nrows
      rw [finalStage_index, sortStage_index, List.length_range]
    rw [hnr, List.map_map]
    refine List.map_congr_left ?_
    intro k hk
    exact intCoerce_rank k
  · rw [finalStage_float_col _ _ (by decide) (by decide),
      sortStage_colGet_ne _ _ (by decide)]
    have hidxr : dfIndexer E = rankIndexer scores := by
      unfold dfIndexer
      rw [← hv, ← hscores]
    rw [hidxr]
    unfold selectPos
    rw [List.map_map]
    have hmapeq : (rankIndexer scores).map (floatCoerceCell ∘ fun i => v.getD i Cell.na)
        = (rankIndexer scores).map (fun i => Cell.num (round6 ((scores.getD i none).getD 0))) := by
      refine List.map_congr_left ?_
      intro i hi
      have hlen : i < v.length := by
        have := rankIndexer_mem_lt hi
        rw [hscores, List.length_map] at this
        exact this
      show floatCoerceCell (v.getD i Cell.na) = Cell.num (round6 ((scores.getD i none).getD 0))
      rw [hscores, scores_getD_eq hlen]
      rcases clip_image_elem hg hcol hlen with hc | ⟨q, hc, h0, h1⟩
      · rw [hc]
        show Cell.num (round6 ((cellQ? (toNumericCell Cell.na)).getD 0))
          = Cell.num (round6 ((cellQ? Cell.na).getD 0))
        rfl
      · rw [hc]
        rfl
    rw [hmapeq]
    refine cellsNonIncreasing_map_num ?_
    refine (rankIndexer_pairwise scores hbound).imp ?_
    intro i j hij
    exact round6_mono hij

/-- C5 (amended): on a table carrying both `smiles` and `xlogp` columns, the
descriptor-estimation stage overwrites a row's `xlogp` exactly when that cell
is missing or numerically zero — the `smiles` sentinel test plays no part in
the trigger; it only decides, inside the RDKit branch, whether the value
written is a computed estimate or a missing marker — and every row whose
`xlogp` cell is neither missing nor zero passes through unchanged. -/
theorem xlogp_trigger_amended (hasRd : Bool) (oracle : String → Option ℚ) (df : DF)
    (hds : df.hasCol "smiles" = true) (hdx : df.hasCol "xlogp" = true)
    (i : Nat) (hi : i < (df.colGet "xlogp").length) :
    ((xlogpStage hasRd oracle df).colGet "xlogp").getD i Cell.na =
      (if missingLogpCell ((df.colGet "xlogp").getD i Cell.na) then
        (if hasRd then
          match computeLogpFromSmiles oracle ((df.colGet "smiles").getD i Cell.na) with
          | some q => Cell.num q
          | none => Cell.na
         else heuristic_logp df i)
       else (df.colGet "xlogp").getD i Cell.na) := by
  have h1 : xlogpStage hasRd oracle df =
      (if (df.colGet "xlogp").any missingLogpCell then
        df.setCol "xlogp" (xlogpUpdate hasRd oracle df (df.colGet "xlogp") (df.colGet "smiles"))
      else df) := by
    unfold xlogpStage
    rw [if_pos hds, if_pos hdx]
  rw [h1]
  by_cases hany : (df.colGet "xlogp").any missingLogpCell = true
  · rw [if_pos hany, colGet_setCol_self]
    unfold xlogpUpdate
    rw [List.getD_eq_getElem?_getD, List.getElem?_map, List.getElem?_range hi]
    rfl
  · rw [if_neg hany]
    have hfalse : (df.colGet "xlogp").any missingLogpCell = false :=
      Bool.eq_false_iff.mpr hany
    have hmem : (df.colGet "xlogp").getD i Cell.na ∈ df.colGet "xlogp" := by
      rw [List.getD_eq_getElem?_getD, List.getElem?_eq_getElem hi]
      exact List.getElem_mem hi
    have hcell : missingLogpCell ((df.colGet "xlogp").getD i Cell.na) = false := by
      have := List.any_eq_false.mp hfalse _ hmem
      exact Bool.eq_false_iff.mpr this
    rw [hcell, if_neg Bool.false_ne_true]

/-- Witness for `xlogp_trigger_amended` on a concrete one-row table whose
`xlogp` is zero and whose `smiles` is the sentinel `"unknown"`. -/
theorem xlogp_trigger_amended_witness :
    ((xlogpStage false (fun _ => none) cexDF5).colGet "xlogp").getD 0 Cell.na =
      (if missingLogpCell ((cexDF5.colGet "xlogp").getD 0 Cell.na) then
        (if false then
          match computeLogpFromSmiles (fun _ => none) ((cexDF5.colGet "smiles").getD 0 Cell.na) with
          | some q => Cell.num q
          | none => Cell.na
         else heuristic_logp cexDF5 0)
       else (cexDF5.colGet "xlogp").getD 0 Cell.na) :=
  xlogp_trigger_amended false (fun _ => none) cexDF5 (by with_unfolding_all decide)
    (by with_unfolding_all decide) 0 (by with_unfolding_all decide)

/-! ## Claim C6 (amended): the heuristic estimator's actual input handling -/

def dfHeurW : DF := { index := [0], cols :=
  [("molecular_weight", [Cell.num 380]), ("polar_area", [Cell.num 60])] }

/-- C6 (amended): the heuristic estimator computes
`clamp(2 + (mw - 350)/250 - (pa - 50)/200, -2, 6)` whenever both inputs
resolve to numbers; an absent column resolves to `0`; but a present
not-a-number marker makes the resolution fail (it is truthy in
`row.get(c) or 0.0`) and the estimate is then the missing marker, not the
formula with a `0.0` substitution. -/
theorem heuristic_formula_amended (df : DF) (i : Nat) :
    (∀ mw pa : ℚ,
      pyFloatOr0 (df.rowGet i "molecular_weight") = some mw →
      pyFloatOr0 (df.rowGet i "polar_area") = some pa →
      heuristic_logp df i
        = Cell.num (qmin 6 (qmax (-2) (2 + (mw - 350) / 250 - (pa - 50) / 200))))
    ∧ (df.rowGet i "molecular_weight" = none →
        pyFloatOr0 (df.rowGet i "molecular_weight") = some 0)
    ∧ (df.rowGet i "polar_area" = none →
        pyFloatOr0 (df.rowGet i "polar_area") = some 0)
    ∧ (pyFloatOr0 (df.rowGet i "molecular_weight") = none → heuristic_logp df i = Cell.na)
    ∧ (pyFloatOr0 (df.rowGet i "polar_area") = none → heuristic_logp df i = Cell.na)
    ∧ pyFloatOr0 (some Cell.na) = none := by
  refine ⟨?_, ?_, ?_, ?_, ?_, rfl⟩
  · intro mw pa hmw hpa
    unfold heuristic_logp
    rw [hmw, hpa]
  · intro h; rw [h]; rfl
  · intro h; rw [h]; rfl
  · intro h
    unfold heuristic_logp
    rw [h]
  · intro h
    unfold heuristic_logp
    rw [h]
    cases pyFloatOr0 (df.rowGet i "molecular_weight") <;> rfl

/-- Witness for `heuristic_formula_amended`: the formula branch on a row with
`molecular_weight = 380`, `polar_area = 60`, and the missing-marker branch on
a row whose `molecular_weight` is the not-a-number marker. -/
theorem heuristic_formula_amended_witness :
    heuristic_logp dfHeurW 0
        = Cell.num (qmin 6 (qmax (-2) (2 + ((380 : ℚ) - 350) / 250 - ((60 : ℚ) - 50) / 200)))
      ∧ heuristic_logp cexDF6 0 = Cell.na :=
  ⟨(heuristic_formula_amended dfHeurW 0).1 380 60 (by with_unfolding_all decide)
      (by with_unfolding_all decide),
   (heuristic_formula_amended cexDF6 0).2.2.2.1 (by with_unfolding_all decide)⟩

/-! ## Claim C4 (amended): the override runs after imputation -/

/-- The combined table's `solubility` cell of a benchmark-source row equals
the min-max-scaled measured value: the override is the last step of the
middle pipeline, so nothing the imputation pass wrote survives there. -/
theorem combinedMid_delaney_cell (hasRd : Bool) (oracle : String → Option ℚ) (dfs : List DF)
    (hm : (preOverride hasRd oracle dfs).hasCol "measured_log_solubility" = true)
    (r : Nat) (hr : r < (preOverride hasRd oracle dfs).nrows)
    (hsrc : ((preOverride hasRd oracle dfs).colGet "source_dataset").getD r Cell.na
        = Cell.str "delaney_solubility") :
    ((combinedMid hasRd oracle dfs).colGet "solubility").getD r Cell.na
      = (minmax ((preOverride hasRd oracle dfs).colGet "measured_log_solubility")).getD r
          Cell.na := by
  set d := preOverride hasRd oracle dfs with hd
  have h1 : combinedMid hasRd oracle dfs
      = d.setCol "solubility" ((List.range d.nrows).map (fun i =>
          if (d.colGet "source_dataset").getD i Cell.na == Cell.str "delaney_solubility" then
            (minmax (d.colGet "measured_log_solubility")).getD i Cell.na
          else (d.colGet "solubility").getD i Cell.na)) := by
    show solOverrideStage d = _
    unfold solOverrideStage
    rw [if_pos hm]
  rw [h1, colGet_setCol_self, List.getD_eq_getElem?_getD, List.getElem?_map,
    List.getElem?_range hr]
  simp only [Option.map_some', Option.getD_some]
  rw [hsrc]
  simp

/-- C4 (amended): the measured-solubility override is applied AFTER the
generic median imputation, as the last step of the harmonized-middle
pipeline: for every benchmark-source row, the `solubility` cell of the
combined table equals the min-max-scaled measured value directly, clobbering
whatever the imputation pass wrote there; the imputation medians therefore
reflect the pre-override column, not the overridden one. -/
theorem override_after_imputation (hasRd : Bool) (oracle : String → Option ℚ) (dfs : List DF)
    (hm : (preOverride hasRd oracle dfs).hasCol "measured_log_solubility" = true)
    (r : Nat) (hr : r < (preOverride hasRd oracle dfs).nrows)
    (hsrc : ((preOverride hasRd oracle dfs).colGet "source_dataset").getD r Cell.na
        = Cell.str "delaney_solubility") :
    ((combinedMid hasRd oracle dfs).colGet "solubility").getD r Cell.na
      = (minmax ((preOverride hasRd oracle dfs).colGet "measured_log_solubility")).getD r
          Cell.na :=
  combinedMid_delaney_cell hasRd oracle dfs hm r hr hsrc

/-- Witness for `override_after_imputation` on the concrete five-row merge of
`cexDF4`, at its first benchmark row. -/
theorem override_after_imputation_witness :
    ((combinedMid false (fun _ => none) [cexDF4]).colGet "solubility").getD 0 Cell.na
      = (minmax ((preOverride false (fun _ => none) [cexDF4]).colGet
          "measured_log_solubility")).getD 0 Cell.na :=
  override_after_imputation false (fun _ => none) [cexDF4]
    (by with_unfolding_all decide) 0 (by with_unfolding_all decide)
    (by with_unfolding_all decide)

/-! ## Claim C10: missing measured solubility ends as exactly 0.0 -/

/-- At a position where the input column holds the missing marker, `minmax`
yields either the missing marker (non-degenerate column) or `0`
(degenerate or empty column). -/
theorem minmax_getD_na {v : List Cell} {r : Nat} (hna : v.getD r Cell.na = Cell.na) :
    (minmax v).getD r Cell.na = Cell.na ∨ (minmax v).getD r Cell.na = Cell.num 0 := by
  simp only [minmax]
  have hrep : ∀ n : Nat, (List.replicate n (Cell.num 0)).getD r Cell.na = Cell.na
      ∨ (List.replicate n (Cell.num 0)).getD r Cell.na = Cell.num 0 := by
    intro n
    rw [List.getD_eq_getElem?_getD, List.getElem?_replicate]
    by_cases h : r < n
    · rw [if_pos h]; right; rfl
    · rw [if_neg h]; left; rfl
  rcases listMin? ((v.map toNumericCell).filterMap cellQ?) with _ | mn
  · rcases listMax? ((v.map toNumericCell).filterMap cellQ?) with _ | mx <;> exact hrep _
  · rcases listMax? ((v.map toNumericCell).filterMap cellQ?) with _ | mx
    · exact hrep _
    · by_cases heq : mn = mx
      · simp only [if_pos heq]
        exact hrep _
      · simp only [if_neg heq]
        left
        rw [List.getD_eq_getElem?_getD, List.getElem?_map, List.getElem?_map]
        rcases Nat.lt_or_ge r v.length with hlt | hge
        · rw [List.getElem?_eq_getElem hlt]
          have hv : v[r] = Cell.na := by
            rw [List.getD_eq_getElem?_getD, List.getElem?_eq_getElem hlt] at hna
            exact hna
          rw [hv]
          rfl
        · rw [List.getElem?_eq_none hge]
          rfl

/-- C10: a benchmark-source row whose measured log-solubility is missing ends
with `solubility` exactly `0` in the final table: the override writes the
min-max image of the missing cell (the missing marker, or `0` when the
measured column is degenerate) over the imputed value, and the final
`fillna(0.0).round(6)` coercion turns the missing marker into `0`. -/
theorem delaney_missing_measured_zero (hasRd : Bool) (oracle : String → Option ℚ)
    (dfs : List DF) (r pos : Nat)
    (hm : (preOverride hasRd oracle dfs).hasCol "measured_log_solubility" = true)
    (hr : r < (preOverride hasRd oracle dfs).nrows)
    (hsrc : ((preOverride hasRd oracle dfs).colGet "source_dataset").getD r Cell.na
        = Cell.str "delaney_solubility")
    (hna : ((preOverride hasRd oracle dfs).colGet "measured_log_solubility").getD r Cell.na
        = Cell.na)
    (hpos : (dfIndexer (engineerStage (combinedMid hasRd oracle dfs)))[pos]? = some r) :
    ((harmonize_and_engineer hasRd oracle dfs).colGet "solubility")[pos]? = some (Cell.num 0) := by
  have hcell := combinedMid_delaney_cell hasRd oracle dfs hm r hr hsrc
  have he : (engineerStage (combinedMid hasRd oracle dfs)).colGet "solubility"
      = (combinedMid hasRd oracle dfs).colGet "solubility" :=
    engineerStage_colGet_ne _ _ (by decide) (by decide) (by decide) (by decide)
  unfold harmonize_and_engineer
  rw [finalStage_float_col _ _ (by decide) (by decide), sortStage_colGet_ne _ _ (by decide),
    List.getElem?_map, selectPos_getElem? hpos]
  rw [he, hcell]
  rcases minmax_getD_na hna with h0 | h0 <;> rw [h0]
  · show some (Cell.num (round6 0)) = some (Cell.num 0)
    rw [round6_zero]
  · show some (Cell.num (round6 0)) = some (Cell.num 0)
    rw [round6_zero]

def dfC10 : DF := { index := [0, 1], cols :=
  [("source_dataset", [Cell.str "delaney_solubility", Cell.str "delaney_solubility"]),
   ("measured_log_solubility", [Cell.num 5, Cell.na]),
   ("solubility", [Cell.num (1/5), Cell.num (4/5)])] }

/-- Witness for `delaney_missing_measured_zero` on a two-row benchmark table
whose second row has a missing measured value and lands at sorted position
`1`. -/
theorem delaney_missing_measured_zero_witness :
    ((harmonize_and_engineer false (fun _ => none) [dfC10]).colGet "solubility")[1]?
      = some (Cell.num 0) :=
  delaney_missing_measured_zero false (fun _ => none) [dfC10] 1 1
    (by with_unfolding_all decide) (by with_unfolding_all decide)
    (by with_unfolding_all decide) (by with_unfolding_all decide)
    (by with_unfolding_all decide)

/-! ## Claim C8 (amended): the actual per-source candidate_id guarantees -/

theorem digitChar_toNat : ∀ r, r < 10 → (Nat.digitChar r).toNat = 48 + r := by decide

theorem digitsNum_append_one (l : List Char) (c : Char) :
    digitsNum (l ++ [c]) = digitsNum l * 10 + (c.toNat - 48) := by
  unfold digitsNum
  rw [List.foldl_append]
  rfl

theorem toDigitsCore_zero (b n : Nat) (l : List Char) : Nat.toDigitsCore b 0 n l = l := rfl

theorem toDigitsCore_succ (b f n : Nat) (l : List Char) :
    Nat.toDigitsCore b (f+1) n l
      = if n / b = 0 then Nat.digitChar (n % b) :: l
        else Nat.toDigitsCore b f (n / b) (Nat.digitChar (n % b) :: l) := rfl

theorem toDigitsCore_append (b : Nat) : ∀ (f n : Nat) (l : List Char),
    Nat.toDigitsCore b f n l = Nat.toDigitsCore b f n [] ++ l := by
  intro f
  induction f with
  | zero => intro n l; rw [toDigitsCore_zero, toDigitsCore_zero]; rfl
  | succ f ih =>
      intro n l
      rw [toDigitsCore_succ, toDigitsCore_succ]
      by_cases h : n / b = 0
      · rw [if_pos h, if_pos h]
        rfl
      · rw [if_neg h, if_neg h, ih (n / b) (Nat.digitChar (n % b) :: l),
          ih (n / b) [Nat.digitChar (n % b)], List.append_assoc]
        rfl

theorem digitsNum_toDigitsCore : ∀ (f n : Nat), n < 10 ^ f →
    digitsNum (Nat.toDigitsCore 10 f n []) = n := by
  intro f
  induction f with
  | zero =>
      intro n hn
      have h0 : n = 0 := by
        have : (10 : Nat) ^ 0 = 1 := rfl
        omega
      subst h0
      rfl
  | succ f ih =>
      intro n hn
      rw [toDigitsCore_succ]
      have hlt : n % 10 < 10 := Nat.mod_lt n (by omega)
      by_cases h : n / 10 = 0
      · rw [if_pos h]
        show digitsNum [Nat.digitChar (n % 10)] = n
        unfold digitsNum
        simp only [List.foldl_cons, List.foldl_nil]
        rw [digitChar_toNat (n % 10) hlt]
        omega
      · rw [if_neg h, toDigitsCore_append, digitsNum_append_one]
        have hdiv : n / 10 < 10 ^ f := by
          rw [Nat.div_lt_iff_lt_mul (by omega)]
          calc n < 10 ^ (f+1) := hn
          _ = 10 ^ f * 10 := by rw [pow_succ]
        rw [ih (n / 10) hdiv, digitChar_toNat (n % 10) hlt]
        omega

theorem toString_nat_injective : Function.Injective (fun n : Nat => toString n) := by
  intro m n h
  have hd : Nat.toDigitsCore 10 (m+1) m [] = Nat.toDigitsCore 10 (n+1) n [] :=
    congrArg String.data h
  have hm : m < 10 ^ (m+1) :=
    lt_of_lt_of_le (Nat.lt_pow_self (by omega) m) (Nat.pow_le_pow_right (by omega) (Nat.le_succ m))
  have hn : n < 10 ^ (n+1) :=
    lt_of_lt_of_le (Nat.lt_pow_self (by omega) n) (Nat.pow_le_pow_right (by omega) (Nat.le_succ n))
  have h1 := digitsNum_toDigitsCore (m+1) m hm
  have h2 := digitsNum_toDigitsCore (n+1) n hn
  rw [hd] at h1
  omega

theorem string_append_left_cancel {a s t : String} (h : a ++ s = a ++ t) : s = t := by
  have hd : a.data ++ s.data = a.data ++ t.data := congrArg String.data h
  have hst : s.data = t.data := List.append_cancel_left hd
  exact congrArg String.mk hst

theorem delaney_id_injective :
    Function.Injective (fun i : Nat => Cell.str ("delaney_" ++ toString i)) := by
  intro a b h
  simp only at h
  injection h with hs
  exact toString_nat_injective (string_append_left_cancel hs)

theorem index_renameFold (l : List (String × String)) (d : DF) :
    (l.foldl (fun d sp => if d.hasCol sp.1 && sp.1 != sp.2 then renameCol d sp.1 sp.2 else d)
      d).index = d.index := by
  induction l generalizing d with
  | nil => rfl
  | cons a t ih =>
      rw [List.foldl_cons, ih]
      by_cases h : (d.hasCol a.1 && a.1 != a.2) = true
      · rw [if_pos h]
        rfl
      · rw [if_neg h]

theorem index_clip (df : DF) (l : List String) : (clip_numeric_outliers df l).index = df.index :=
  rfl

theorem index_setScalar (df : DF) (c : String) (x : Cell) :
    (df.setScalar c x).index = df.index := rfl

theorem delaney_candidate_col (dfd : DF) :
    (prepare_delaney dfd).colGet "candidate_id"
      = (selectPos (dropDupKeep (normalize_columns dfd)) 0 dfd.index).map
          (fun i => Cell.str ("delaney_" ++ toString i)) := by
  simp only [prepare_delaney]
  rw [colGet_setCol_ne _ _ _ _ (by decide), colGet_setCol_ne _ _ _ _ (by decide),
    colGet_setCol_self]
  rw [index_setScalar, index_project, index_clip, index_renameFold]
  rfl

theorem dropDupKeep_lt (df : DF) : ∀ i ∈ dropDupKeep df, i < df.nrows := by
  intro i hi
  unfold dropDupKeep at hi
  exact List.mem_range.mp (List.mem_filter.mp hi).1

theorem dropDupKeep_nodup (df : DF) : (dropDupKeep df).Nodup :=
  (List.nodup_range _).filter _

theorem selectPos_nodup {idx : List Nat} (hidx : idx.Nodup) {keep : List Nat}
    (hk : keep.Nodup) (hlt : ∀ i ∈ keep, i < idx.length) :
    (selectPos keep 0 idx).Nodup := by
  unfold selectPos
  refine List.Nodup.map_on ?_ hk
  intro i hi j hj hij
  have hi' := hlt i hi
  have hj' := hlt j hj
  rw [List.getD_eq_getElem?_getD, List.getElem?_eq_getElem hi',
    List.getD_eq_getElem?_getD, List.getElem?_eq_getElem hj'] at hij
  have hgg : idx[i] = idx[j] := hij
  exact (List.Nodup.getElem_inj_iff hidx).mp hgg

theorem colGet_ite_setCol_ne (P : Prop) [Decidable P] (d : DF) (n : String)
    (v : List Cell) (c : String) (h : n ≠ c) :
    (if P then d.setCol n v else d).colGet c = d.colGet c := by
  by_cases hP : P
  · rw [if_pos hP, colGet_setCol_ne _ _ _ _ h]
  · rw [if_neg hP]

theorem getCol?_ite_setCol_ne (P : Prop) [Decidable P] (d : DF) (n : String)
    (v : List Cell) (c : String) (h : n ≠ c) :
    (if P then d.setCol n v else d).getCol? c = d.getCol? c := by
  by_cases hP : P
  · rw [if_pos hP, getCol?_setCol_ne _ _ _ _ h]
  · rw [if_neg hP]

theorem getCol?_setScalar_ne (df : DF) (c c' : String) (x : Cell) (h : c ≠ c') :
    (df.setScalar c x).getCol? c' = df.getCol? c' := getCol?_setCol_ne _ _ _ _ h

theorem colGet_setScalar_ne (df : DF) (c c' : String) (x : Cell) (h : c ≠ c') :
    (df.setScalar c x).colGet c' = df.colGet c' := colGet_setCol_ne _ _ _ _ h

theorem find?_cols_map (g : List Cell → List Cell) (l : List (String × List Cell)) (c : String) :
    (l.map (fun p => (p.1, g p.2))).find? (fun p => p.1 == c)
      = (l.find? (fun p => p.1 == c)).map (fun p => (p.1, g p.2)) := by
  induction l with
  | nil => rfl
  | cons a t ih =>
      rw [List.map_cons, List.find?_cons, List.find?_cons]
      by_cases h : a.1 = c
      · rw [show (((a.1, g a.2)).1 == c) = true from by simp [h]]
        rfl
      · rw [show (((a.1, g a.2)).1 == c) = false from by simp [h]]
        exact ih

theorem getCol?_dropDuplicates (df : DF) (c : String) :
    df.dropDuplicates.getCol? c
      = (df.getCol? c).map (fun v => selectPos (dropDupKeep df) Cell.na v) := by
  unfold DF.dropDuplicates DF.getCol?
  rw [find?_cols_map]
  cases df.cols.find? (fun p => p.1 == c) <;> rfl

theorem prepare_pubchem_ok_candidate {df res : DF} (h : prepare_pubchem df = Except.ok res) :
    ∃ cid : List Cell, res.colGet "candidate_id"
      = cid.map (fun c => Cell.str ("pubchem_" ++ cellToStr c)) := by
  simp only [prepare_pubchem] at h
  split at h
  · exact Except.noConfusion h
  · rename_i cid heq
    refine ⟨cid, ?_⟩
    obtain rfl := Except.ok.inj h
    rw [colGet_ite_setCol_ne _ _ _ _ _ (by decide), colGet_ite_setCol_ne _ _ _ _ _ (by decide),
      colGet_setCol_self]

theorem quantum_candidate_eq_name (dfq : DF)
    (hq : (normalize_columns dfq).hasCol "molecule_id" = true) :
    (prepare_quantum dfq).colGet "candidate_id" = (prepare_quantum dfq).colGet "name" := by
  simp only [prepare_quantum, List.foldl_cons, List.foldl_nil]
  rw [colGet_setScalar_ne _ _ _ _ (by decide), colGet_setScalar_ne _ _ _ _ (by decide),
    colGet_setCol_ne _ _ _ _ (by decide), colGet_setCol_self, colGet_setCol_self]
  rw [getCol?_setCol_ne _ _ _ _ (by decide)]
  rw [getCol?_setScalar_ne _ _ _ _ (by decide),
    getCol?_ite_setCol_ne _ _ _ _ _ (by decide), getCol?_ite_setCol_ne _ _ _ _ _ (by decide),
    getCol?_ite_setCol_ne _ _ _ _ _ (by decide), getCol?_ite_setCol_ne _ _ _ _ _ (by decide)]
  rw [getCol?_dropDuplicates]
  unfold DF.hasCol at hq
  rcases hv : (normalize_columns dfq).getCol? "molecule_id" with _ | v
  · rw [hv] at hq
    exact absurd hq (by simp)
  · simp only [Option.map_some']

/-- C8 (amended): the per-source guarantees that actually hold.  Every
pubchem candidate id has the `"pubchem_" ++ local` shape (but it repeats when
the input carries duplicate compound cids on otherwise-distinct rows); the
benchmark adapter's ids have the `"delaney_" ++ label` shape and are pairwise
distinct whenever the input index labels are distinct; the simulation
adapter's candidate id is the verbatim molecule-id string — it coincides with
the `name` column and carries no source tag at all. -/
theorem candidate_id_amended (dfp dfd dfq : DF) (outp : DF)
    (hp : prepare_pubchem dfp = Except.ok outp)
    (hidx : dfd.index.Nodup)
    (hq : (normalize_columns dfq).hasCol "molecule_id" = true) :
    (∀ c ∈ outp.colGet "candidate_id", ∃ s : String, c = Cell.str ("pubchem_" ++ s))
    ∧ (∀ c ∈ (prepare_delaney dfd).colGet "candidate_id",
        ∃ n : Nat, c = Cell.str ("delaney_" ++ toString n))
    ∧ ((prepare_delaney dfd).colGet "candidate_id").Nodup
    ∧ (prepare_quantum dfq).colGet "candidate_id" = (prepare_quantum dfq).colGet "name" := by
  refine ⟨?_, ?_, ?_, quantum_candidate_eq_name dfq hq⟩
  · obtain ⟨cid, hcol⟩ := prepare_pubchem_ok_candidate hp
    intro c hc
    rw [hcol, List.mem_map] at hc
    obtain ⟨x, _, hx⟩ := hc
    exact ⟨cellToStr x, hx.symm⟩
  · intro c hc
    rw [delaney_candidate_col, List.mem_map] at hc
    obtain ⟨n, _, hn⟩ := hc
    exact ⟨n, hn.symm⟩
  · rw [delaney_candidate_col]
    refine List.Nodup.map delaney_id_injective ?_
    exact selectPos_nodup hidx (dropDupKeep_nodup _) (dropDupKeep_lt _)

/-- Witness for `candidate_id_amended` on the concrete C8 input tables. -/
theorem candidate_id_amended_witness :
    (∀ c ∈ cexPubOut.colGet "candidate_id", ∃ s : String, c = Cell.str ("pubchem_" ++ s))
    ∧ (∀ c ∈ (prepare_delaney dfC10).colGet "candidate_id",
        ∃ n : Nat, c = Cell.str ("delaney_" ++ toString n))
    ∧ ((prepare_delaney dfC10).colGet "candidate_id").Nodup
    ∧ (prepare_quantum cexDFQ).colGet "candidate_id" = (prepare_quantum cexDFQ).colGet "name" :=
  candidate_id_amended cexDFP dfC10 cexDFQ cexPubOut (by with_unfolding_all rfl)
    (by with_unfolding_all decide) (by with_unfolding_all decide)
